import Mathlib

/-!
The package `internal/file` of gosimpledb: blocks, pages and the file manager.

A shallow embedding of `block.go`, `page.go` and `file_manager.go`.

* A `[]byte` is a `List Byte`, a byte is a `Fin 256`.  A Go `string` is its byte sequence
  (`GoString`), so `[]byte(s)`, `string(b)` and `len(s)` are the identity and the length.
* A Go `int` that is an offset or a block number is an `Int`; an `int32` is an `Int` in
  `[-2^31, 2^31)`.  The product `blk.Number()*BLOCK_SIZE` wraps modulo `2^64` as in Go.
* A call has an `Outcome`: it returns, it panics (a slice bound is violated), or the calling
  goroutine blocks for ever on a lock.  The embedding follows one goroutine; a lock that is
  held when that goroutine asks for it is never released by anybody else.
* The operating system holds regular files (finite byte sequences) by cleaned path, the set
  of directories, and the largest size a file may reach on the file system, a whole number of
  blocks of `BLOCK_SIZE` bytes as on ext4 with 4 KiB blocks (`2^32 - 1` blocks).
  `os.OpenFile` fails on a missing path without `O_CREATE`, on a directory, below a missing
  directory or a regular file, and on a name the system does not take; `Seek` fails on a
  negative offset and beyond the largest file size; `Write` fails with `EFBIG` at the largest
  file size, and a write that starts below it and would end beyond it is cut at that size
  before it fails; a transfer that would end at `2^63` or beyond is `EINVAL`; `Read` reports
  `io.EOF` when it transfers no byte into a non-empty buffer.  Failures that depend on what is
  outside this state (permissions, a full disk, a lack of descriptors), and file systems
  whose largest file size is no multiple of `BLOCK_SIZE`, are not modelled.
* File names and paths are Lean strings; `filepath.Join` is modelled for slash-separated
  paths.  Two cleaned paths are two files: links, and a path that leaves the working
  directory through `..` and comes back to it, are not modelled.
-/

namespace GoSimpleDB

/-! ## Bytes, slices, integers -/

/-- One byte. -/
abbrev Byte := Fin 256

/-- Go strings are byte sequences. -/
abbrev GoString := List Byte

/-- Number of bytes in a block (`BLOCK_SIZE`, page.go line 24). -/
def BLOCK_SIZE : Nat := 4096

/-- Size of an integer in bytes (`INT_SIZE`, page.go line 29). -/
def INT_SIZE : Nat := 4

/-- The low eight bits of a natural number. -/
def byteOf (n : Nat) : Byte := ⟨n % 256, Nat.mod_lt n (by decide)⟩

/-- Conversion `int32(n)` of a Go integer: keep the low 32 bits, read them as signed. -/
def toInt32 (n : Int) : Int := (n + 2147483648) % 4294967296 - 2147483648

/-- Conversion `int64(n)` and wrap-around of 64-bit `int` arithmetic. -/
def toInt64 (n : Int) : Int := (n + 9223372036854775808) % 18446744073709551616 - 9223372036854775808

/-- The four bytes `binary.Write(buf, binary.LittleEndian, val)` puts in the buffer for an
`int32`: the two's-complement bit pattern, least significant byte first. -/
def putInt32LE (val : Int) : List Byte :=
  let u := (val % 4294967296).toNat
  [byteOf u, byteOf (u / 256), byteOf (u / 65536), byteOf (u / 16777216)]

/-- The value `binary.Read(buf, binary.LittleEndian, &val)` stores in an `int32` when the
reader holds exactly four bytes; with any other number of bytes the read fails and `val` keeps
its zero value. -/
def readInt32LE (b : List Byte) : Int :=
  match b with
  | [b0, b1, b2, b3] =>
    toInt32 ((b0.val + 256 * b1.val + 65536 * b2.val + 16777216 * b3.val : Nat) : Int)
  | _ => 0

/-- The slice expression `s[lo:hi]` on a slice whose capacity is its length; `none` is the
run-time panic for bounds out of range. -/
def slice (s : List Byte) (lo hi : Int) : Option (List Byte) :=
  if 0 ≤ lo ∧ lo ≤ hi ∧ hi ≤ s.length then some ((s.drop lo.toNat).take (hi - lo).toNat) else none

/-- The statement `copy(dst[lo:], src)`: the new value of `dst`, or `none` when `dst[lo:]`
panics.  `copy` transfers `min(len(dst[lo:]), len(src))` bytes. -/
def copyAt (dst : List Byte) (lo : Int) (src : List Byte) : Option (List Byte) :=
  if 0 ≤ lo ∧ lo ≤ dst.length then
    let k := min (dst.length - lo.toNat) src.length
    some (dst.take lo.toNat ++ src.take k ++ dst.drop (lo.toNat + k))
  else none

/-! ## Outcomes and locks -/

/-- How a call ends for the goroutine that made it. -/
inductive Outcome (α : Type) where
  | ret (a : α)
  | panic
  | blocked
  deriving DecidableEq

/-- Sequencing: the rest of the function body runs only when the call returned. -/
def Outcome.bind {α β : Type} (x : Outcome α) (f : α → Outcome β) : Outcome β :=
  match x with
  | .ret a => f a
  | .panic => .panic
  | .blocked => .blocked

/-- A `sync.RWMutex`: whether a writer holds it and how many read locks are held. -/
structure RWMutex where
  writer : Bool
  readers : Nat
  deriving DecidableEq

/-- The zero value of a `sync.RWMutex`: held by nobody. -/
def RWMutex.free : RWMutex := { writer := false, readers := 0 }

/-- `mu.Lock()`: blocks while the mutex is held for reading or writing (it is not reentrant). -/
def RWMutex.Lock (m : RWMutex) : Outcome RWMutex :=
  if m.writer = false ∧ m.readers = 0 then .ret { m with writer := true } else .blocked

/-- `mu.Unlock()`: a run-time error when the mutex is not held for writing. -/
def RWMutex.Unlock (m : RWMutex) : Outcome RWMutex :=
  if m.writer = true then .ret { m with writer := false } else .panic

/-- `mu.RLock()`: blocks while a writer holds the mutex. -/
def RWMutex.RLock (m : RWMutex) : Outcome RWMutex :=
  if m.writer = false then .ret { m with readers := m.readers + 1 } else .blocked

/-- `mu.RUnlock()`: a run-time error when no read lock is held. -/
def RWMutex.RUnlock (m : RWMutex) : Outcome RWMutex :=
  if m.readers = 0 then .panic else .ret { m with readers := m.readers - 1 }

/-! ## Pages: typed accessors (page.go) -/

/-- A `Page` (page.go lines 13-17): its lock and its contents.  The `fileMgr` reference is
the file manager of the `World` the I/O methods run in. -/
structure Page where
  mu : RWMutex
  contents : List Byte
  deriving DecidableEq

/-- `NewPage` (page.go lines 33-38): `make([]byte, BLOCK_SIZE)` is zero-filled. -/
def NewPage : Page := { mu := RWMutex.free, contents := List.replicate BLOCK_SIZE 0 }

/-- `StrSize` (page.go lines 43-47). -/
def StrSize (n : Int) : Int := toInt64 (INT_SIZE + n * 4)

/-- `Page.GetInt` (page.go lines 73-82).  A panic in the slice expression unwinds through
the deferred `RUnlock`. -/
def Page.GetInt (p : Page) (offset : Int) : Outcome (Page × Int) :=
  p.mu.RLock.bind fun mu1 =>
    match slice p.contents offset (offset + INT_SIZE) with
    | none => .panic
    | some b =>
      let val := readInt32LE b
      mu1.RUnlock.bind fun mu2 => .ret ({ p with mu := mu2 }, val)

/-- `Page.SetInt` (page.go lines 85-93). -/
def Page.SetInt (p : Page) (offset : Int) (val : Int) : Outcome Page :=
  p.mu.Lock.bind fun mu1 =>
    let buf := putInt32LE val
    match copyAt p.contents offset buf with
    | none => .panic
    | some contents =>
      mu1.Unlock.bind fun mu2 => .ret { mu := mu2, contents := contents }

/-- `Page.GetString` (page.go lines 98-107): `GetInt` is called with the read lock held. -/
def Page.GetString (p : Page) (offset : Int) : Outcome (Page × GoString) :=
  p.mu.RLock.bind fun mu1 =>
    (Page.GetInt { p with mu := mu1 } offset).bind fun r =>
      let len := r.2
      match slice r.1.contents (offset + INT_SIZE) (offset + INT_SIZE + len) with
      | none => .panic
      | some s =>
        r.1.mu.RUnlock.bind fun mu2 => .ret ({ r.1 with mu := mu2 }, s)

/-- `Page.SetString` (page.go lines 111-120): `SetInt` is called with the write lock held. -/
def Page.SetString (p : Page) (offset : Int) (val : GoString) : Outcome Page :=
  p.mu.Lock.bind fun mu1 =>
    (Page.SetInt { p with mu := mu1 } offset (toInt32 val.length)).bind fun p1 =>
      match copyAt p1.contents (offset + INT_SIZE) val with
      | none => .panic
      | some contents =>
        p1.mu.Unlock.bind fun mu2 => .ret { mu := mu2, contents := contents }

/-! ## Blocks (block.go) -/

/-- A `Block` (block.go lines 9-12): a file name and a block number. -/
structure Block where
  filename : String
  blknum : Int
  deriving DecidableEq

/-- `NewBlock` (block.go lines 15-20). -/
def NewBlock (filename : String) (blknum : Int) : Block := { filename := filename, blknum := blknum }

/-- `Block.FileName` (block.go lines 23-25). -/
def Block.FileName (b : Block) : String := b.filename

/-- `Block.Number` (block.go lines 28-30). -/
def Block.Number (b : Block) : Int := b.blknum

/-- `Block.Equal` (block.go lines 33-35). -/
def Block.Equal (b other : Block) : Bool :=
  decide (b.filename = other.filename) && decide (b.blknum = other.blknum)

/-! ## The operating system: paths, files, handles -/

/-- The components of a path between its slashes. -/
def splitSlash : List Char → List (List Char)
  | [] => [[]]
  | c :: cs =>
    match splitSlash cs with
    | [] => [[]]
    | x :: xs => if c = '/' then [] :: x :: xs else (c :: x) :: xs

/-- One step of `filepath.Clean`: `stack` holds the components kept so far, last one first.
Empty components and `.` are dropped, `..` removes the component before it, is dropped at the
root, and is kept at the start of a relative path. -/
def cleanStep (rooted : Bool) (stack : List (List Char)) (c : List Char) : List (List Char) :=
  if c = [] ∨ c = ['.'] then stack
  else if c = ['.', '.'] then
    match stack with
    | [] => if rooted then [] else [c]
    | t :: rest => if t = ['.', '.'] then c :: stack else rest
  else c :: stack

/-- The function `filepath.Clean` for slash-separated paths. -/
def Clean (path : String) : String :=
  let cs := path.toList
  let rooted := decide (cs.head? = some '/')
  let comps := ((splitSlash cs).foldl (cleanStep rooted) []).reverse
  let body := String.mk (List.intercalate ['/'] comps)
  if rooted then "/" ++ body else if comps = [] then "." else body

/-- The call `filepath.Join(dir, name)`: the elements from the first non-empty one on are
joined with a slash and cleaned; the result is empty when both are empty. -/
def Join (dir name : String) : String :=
  if dir ≠ "" then Clean (dir ++ "/" ++ name)
  else if name ≠ "" then Clean name
  else ""

/-- The regular files of the file system, by cleaned path. -/
abbrev Disk := String → Option (List Byte)

/-- The file system with the file at `path` replaced by `data`. -/
def Disk.set (disk : Disk) (path : String) (data : List Byte) : Disk :=
  fun q => if q = path then some data else disk q

/-- The errors the operating system reports in this model. -/
inductive IOError where
  | notExist
  | invalidArgument
  | eof
  | staleHandle
  | isDirectory
  | notDirectory
  | nameTooLong
  | fileTooLarge
  deriving DecidableEq

/-- An open `*os.File`: the file it was opened on and its seek position. -/
structure OSFile where
  path : String
  pos : Nat
  deriving DecidableEq

/-- The longest name of one directory entry, in bytes (`NAME_MAX`). -/
def NAME_MAX : Nat := 255

/-- The length from which on a path is too long, in bytes (`PATH_MAX`). -/
def PATH_MAX : Nat := 4096

/-- The number of bytes of the UTF-8 encoding of a sequence of characters. -/
def utf8Len (cs : List Char) : Nat := (cs.map fun c => c.utf8Size).sum

/-- The number of bytes of the last component of a path. -/
def baseLen (path : String) : Nat :=
  match (splitSlash path.toList).getLast? with
  | some c => utf8Len c
  | none => 0

/-- The directories on the way to a cleaned path, outermost first: `db` and `db/sub` for
`db/sub/x`.  The root and the working directory are not among them. -/
def ancestorsAux : List Char → List Char → List String
  | _, [] => []
  | pre, c :: cs =>
    if c = '/' ∧ pre ≠ [] then String.mk pre.reverse :: ancestorsAux (c :: pre) cs
    else ancestorsAux (c :: pre) cs

/-- The directories on the way to a cleaned path, outermost first. -/
def ancestors (path : String) : List String := ancestorsAux [] path.toList

/-- The error of looking up a name that is no file and no directory: `ENAMETOOLONG` when the
name is too long for a directory entry, else `ENOENT`. -/
def missingError (path : String) : IOError :=
  if NAME_MAX < baseLen path then .nameTooLong else .notExist

/-- A path made of `..` components only: it is a directory in every file system. -/
def upOnly (path : String) : Bool :=
  (splitSlash path.toList).all fun c => decide (c = ['.', '.'])

/-- The walk through the directories on the way to a path: the error at the first of them
that is no directory, `ENOTDIR` at a regular file, else the error of a missing name. -/
def pathError (disk : Disk) (dirs : String → Bool) : List String → Option IOError
  | [] => none
  | a :: rest =>
    if dirs a = true ∨ upOnly a = true then pathError disk dirs rest
    else if (disk a).isSome = true then some .notDirectory
    else some (missingError a)

/-- The error, if any, with which the system refuses to open or create a regular file on a
path that holds none: a NUL in the name (`EINVAL`), a path or a name too long
(`ENAMETOOLONG`), the empty path (`ENOENT`), a directory (`EISDIR` for an open for writing),
a missing directory (`ENOENT`) or a regular file (`ENOTDIR`) on the way. -/
def openError (disk : Disk) (dirs : String → Bool) (name : String) : Option IOError :=
  if name.toList.contains (Char.ofNat 0) = true then some .invalidArgument
  else if PATH_MAX ≤ utf8Len name.toList then some .nameTooLong
  else if name = "" then some .notExist
  else if dirs name = true ∨ name = "." ∨ name = "/" ∨ upOnly name = true then
    some .isDirectory
  else
    match pathError disk dirs (ancestors name) with
    | some e => some e
    | none => if NAME_MAX < baseLen name then some .nameTooLong else none

/-- The call `os.OpenFile(name, os.O_RDWR, 0644)`, or with `os.O_RDWR|os.O_CREATE` when
`create` is set: the new file system and the handle or the error.  A regular file that
exists is opened; a missing one is made only with `create`, and only where the system takes
the path (`openError`). -/
def OpenFile (disk : Disk) (dirs : String → Bool) (name : String) (create : Bool) :
    Disk × Except IOError OSFile :=
  match disk name with
  | some _ => (disk, .ok { path := name, pos := 0 })
  | none =>
    match openError disk dirs name with
    | some e => (disk, .error e)
    | none =>
      if create then (disk.set name [], .ok { path := name, pos := 0 })
      else (disk, .error .notExist)

/-- The largest offset and file size the system works with: the limit `maxBytes` of the file
system, and never more than the largest int64. -/
def fileLimit (maxBytes : Nat) : Nat := min maxBytes 9223372036854775807

/-- The method `file.Seek(offset, whence)` with `whence` 0 (start), 1 (current) or 2 (end):
the handle afterwards and the new position or the error.  A position that is negative or
beyond the largest file size is `EINVAL`. -/
def OSFile.Seek (f : OSFile) (disk : Disk) (maxBytes : Nat) (offset : Int) (whence : Nat) :
    OSFile × Except IOError Int :=
  match disk f.path with
  | none => (f, .error .staleHandle)
  | some data =>
    let base : Int := if whence = 0 then 0 else if whence = 1 then f.pos else data.length
    if whence ≤ 2 ∧ 0 ≤ base + offset ∧ base + offset ≤ fileLimit maxBytes then
      ({ f with pos := (base + offset).toNat }, .ok (base + offset))
    else (f, .error .invalidArgument)

/-- The method `file.Read(p)`: the handle, the buffer and the error afterwards.  A regular file
delivers `min(len(p), size - pos)` bytes into the front of `p`; no byte delivered into a
non-empty buffer is `io.EOF`; a transfer that would end at `2^63` or beyond is `EINVAL`. -/
def OSFile.Read (f : OSFile) (disk : Disk) (p : List Byte) : OSFile × List Byte × Option IOError :=
  match disk f.path with
  | none => (f, p, some .staleHandle)
  | some data =>
    let k := min p.length (data.length - f.pos)
    if p.length = 0 then (f, p, none)
    else if 9223372036854775808 ≤ f.pos + p.length then (f, p, some .invalidArgument)
    else if k = 0 then (f, p, some .eof)
    else ({ f with pos := f.pos + k }, (data.drop f.pos).take k ++ p.drop k, none)

/-- The bytes of a file after `p` is written at position `pos`: a position beyond the end
leaves a gap that reads as zero bytes; writing no byte changes nothing. -/
def writeAt (data : List Byte) (pos : Nat) (p : List Byte) : List Byte :=
  if p.length = 0 then data
  else data.take pos ++ List.replicate (pos - data.length) 0 ++ p ++ data.drop (pos + p.length)

/-- The method `file.Write(p)`: the handle, the file system and the error afterwards.  A
transfer that would end at `2^63` or beyond is `EINVAL`; a write at the largest file size is
`EFBIG`; both write nothing.  A write that starts below the largest file size and would end
beyond it writes the bytes that fit, and the loop of `Write` over what is left then meets
`EFBIG`. -/
def OSFile.Write (f : OSFile) (disk : Disk) (maxBytes : Nat) (p : List Byte) :
    OSFile × Disk × Option IOError :=
  match disk f.path with
  | none => (f, disk, some .staleHandle)
  | some data =>
    if p.length ≠ 0 ∧ 9223372036854775808 ≤ f.pos + p.length then
      (f, disk, some .invalidArgument)
    else if p.length ≠ 0 ∧ fileLimit maxBytes ≤ f.pos then (f, disk, some .fileTooLarge)
    else if p.length ≠ 0 ∧ fileLimit maxBytes < f.pos + p.length then
      ({ f with pos := fileLimit maxBytes },
        disk.set f.path (writeAt data f.pos (p.take (fileLimit maxBytes - f.pos))),
        some .fileTooLarge)
    else ({ f with pos := f.pos + p.length }, disk.set f.path (writeAt data f.pos p), none)

/-- The value `fileInfo.Size()` after `file.Stat()`. -/
def OSFile.Stat (f : OSFile) (disk : Disk) : Except IOError Nat :=
  match disk f.path with
  | none => .error .staleHandle
  | some data => .ok data.length

/-! ## The file manager (file_manager.go) -/

/-- A `FileManager` (file_manager.go lines 10-14). -/
structure FileManager where
  mu : RWMutex
  dbDir : String
  openFiles : String → Option OSFile

/-- The file system together with the file manager the pages are bound to: the regular
files, the file manager, the directories, and the largest file size of the file system in
blocks of `BLOCK_SIZE` bytes. -/
structure World where
  disk : Disk
  fm : FileManager
  dirs : String → Bool
  maxBlocks : Nat

/-- The largest file size of the file system in bytes. -/
def World.maxBytes (w : World) : Nat := w.maxBlocks * BLOCK_SIZE

/-- `NewFileManager` (file_manager.go lines 17-27) when `os.MkdirAll` succeeds. -/
def NewFileManager (dbDir : String) : FileManager :=
  { mu := RWMutex.free, dbDir := dbDir, openFiles := fun _ => none }

/-- The handle stored under `name` in `openFiles` is replaced by `file`.  Handles are pointers:
a seek, read or write through `file` is seen by the next lookup. -/
def World.setHandle (w : World) (name : String) (file : OSFile) : World :=
  { w with fm := { w.fm with openFiles := fun q => if q = name then some file else w.fm.openFiles q } }

/-- The handle resolution that opens `Read`, `Write` and `Append` (file_manager.go lines
31-44, 59-72, 87-100): look the name up under the read lock; when absent, open the file
(`create` is the `O_CREATE` flag of `Append`), then store the handle under the write lock.
An open error is returned to the caller of the method. -/
def FileManager.getOrOpen (w : World) (name : String) (create : Bool) :
    Outcome (World × Except IOError OSFile) :=
  w.fm.mu.RLock.bind fun m1 =>
    let found := w.fm.openFiles name
    m1.RUnlock.bind fun m2 =>
      match found with
      | some file => .ret ({ w with fm := { w.fm with mu := m2 } }, .ok file)
      | none =>
        let r := OpenFile w.disk w.dirs (Join w.fm.dbDir name) create
        match r.2 with
        | .error e => .ret ({ w with disk := r.1, fm := { w.fm with mu := m2 } }, .error e)
        | .ok file =>
          m2.Lock.bind fun m3 =>
            let w1 := World.setHandle { w with disk := r.1 } name file
            m3.Unlock.bind fun m4 => .ret ({ w1 with fm := { w1.fm with mu := m4 } }, .ok file)

/-- `FileManager.Read` (file_manager.go lines 30-55): the world, the buffer `p` and the
returned error. -/
def FileManager.Read (w : World) (blk : Block) (p : List Byte) :
    Outcome (World × List Byte × Option IOError) :=
  (FileManager.getOrOpen w blk.FileName false).bind fun r =>
    match r.2 with
    | .error e => .ret (r.1, p, some e)
    | .ok file =>
      let s := file.Seek r.1.disk r.1.maxBytes (toInt64 (blk.Number * BLOCK_SIZE)) 0
      match s.2 with
      | .error e => .ret (r.1.setHandle blk.FileName s.1, p, some e)
      | .ok _ =>
        let t := s.1.Read r.1.disk p
        .ret (r.1.setHandle blk.FileName t.1, t.2.1, t.2.2)

/-- `FileManager.Write` (file_manager.go lines 58-83): the world and the returned error. -/
def FileManager.Write (w : World) (blk : Block) (p : List Byte) :
    Outcome (World × Option IOError) :=
  (FileManager.getOrOpen w blk.FileName false).bind fun r =>
    match r.2 with
    | .error e => .ret (r.1, some e)
    | .ok file =>
      let s := file.Seek r.1.disk r.1.maxBytes (toInt64 (blk.Number * BLOCK_SIZE)) 0
      match s.2 with
      | .error e => .ret (r.1.setHandle blk.FileName s.1, some e)
      | .ok _ =>
        let t := s.1.Write r.1.disk r.1.maxBytes p
        .ret (World.setHandle { r.1 with disk := t.2.1 } blk.FileName t.1, t.2.2)

/-- `FileManager.Append` (file_manager.go lines 86-124): the world and the returned block or
error. -/
def FileManager.Append (w : World) (filename : String) (p : List Byte) :
    Outcome (World × Except IOError Block) :=
  (FileManager.getOrOpen w filename true).bind fun r =>
    match r.2 with
    | .error e => .ret (r.1, .error e)
    | .ok file =>
      match file.Stat r.1.disk with
      | .error e => .ret (r.1, .error e)
      | .ok size =>
        let blknum : Int := ((size / BLOCK_SIZE : Nat) : Int)
        let s := file.Seek r.1.disk r.1.maxBytes 0 2
        match s.2 with
        | .error e => .ret (r.1.setHandle filename s.1, .error e)
        | .ok _ =>
          let t := s.1.Write r.1.disk r.1.maxBytes p
          match t.2.2 with
          | some e => .ret (World.setHandle { r.1 with disk := t.2.1 } filename t.1, .error e)
          | none => .ret (World.setHandle { r.1 with disk := t.2.1 } filename t.1, .ok (NewBlock filename blknum))

/-! ## Pages: block I/O (page.go) -/

/-- `Page.Read` (page.go lines 50-54). -/
def Page.Read (w : World) (p : Page) (blk : Block) : Outcome (World × Page × Option IOError) :=
  p.mu.Lock.bind fun mu1 =>
    (FileManager.Read w blk p.contents).bind fun r =>
      mu1.Unlock.bind fun mu2 => .ret (r.1, { mu := mu2, contents := r.2.1 }, r.2.2)

/-- `Page.Write` (page.go lines 57-61). -/
def Page.Write (w : World) (p : Page) (blk : Block) : Outcome (World × Page × Option IOError) :=
  p.mu.Lock.bind fun mu1 =>
    (FileManager.Write w blk p.contents).bind fun r =>
      mu1.Unlock.bind fun mu2 => .ret (r.1, { p with mu := mu2 }, r.2)

/-- `Page.Append` (page.go lines 64-68). -/
def Page.Append (w : World) (p : Page) (filename : String) :
    Outcome (World × Page × Except IOError Block) :=
  p.mu.Lock.bind fun mu1 =>
    (FileManager.Append w filename p.contents).bind fun r =>
      mu1.Unlock.bind fun mu2 => .ret (r.1, { p with mu := mu2 }, r.2)

/-! ## Sequences of calls on one page -/

/-- One call of a `Page` method, with its arguments. -/
inductive PageOp where
  | getInt (offset : Int)
  | setInt (offset : Int) (val : Int)
  | getString (offset : Int)
  | setString (offset : Int) (val : GoString)
  | read (blk : Block)
  | write (blk : Block)
  | append (filename : String)

/-- The world and the page after one call that returns; the value returned is dropped. -/
def PageOp.run (w : World) (p : Page) : PageOp → Outcome (World × Page)
  | .getInt offset => (p.GetInt offset).bind fun r => .ret (w, r.1)
  | .setInt offset val => (p.SetInt offset val).bind fun p1 => .ret (w, p1)
  | .getString offset => (p.GetString offset).bind fun r => .ret (w, r.1)
  | .setString offset val => (p.SetString offset val).bind fun p1 => .ret (w, p1)
  | .read blk => (p.Read w blk).bind fun r => .ret (r.1, r.2.1)
  | .write blk => (p.Write w blk).bind fun r => .ret (r.1, r.2.1)
  | .append filename => (p.Append w filename).bind fun r => .ret (r.1, r.2.1)

/-- The world and the page after a sequence of calls, each made when the one before it has
returned. -/
def runOps (w : World) (p : Page) : List PageOp → Outcome (World × Page)
  | [] => .ret (w, p)
  | op :: ops => (op.run w p).bind fun r => runOps r.1 r.2 ops

/-- The largest file of an ext4 file system with blocks of 4 KiB, in blocks: `2^32 - 1`. -/
def EXT4_MAX_BLOCKS : Nat := 4294967295

/-- The largest file of an ext4 file system with blocks of 4 KiB: `2^44 - 4096` bytes. -/
def EXT4_MAX_BYTES : Nat := 17592186040320

/-- The directories after `os.MkdirAll(path)` has succeeded on a system that had `dirs`. -/
def mkdirAll (dirs : String → Bool) (path : String) : String → Bool :=
  fun q => dirs q || decide (q = Clean path) || decide (q ∈ ancestors (Clean path))

/-- A world with no file on disk and a file manager just made for directory `dbDir`, on an
ext4 file system: `NewFileManager` has made the directory. -/
def World.fresh (dbDir : String) : World :=
  { disk := fun _ => none, fm := NewFileManager dbDir,
    dirs := mkdirAll (fun _ => false) dbDir, maxBlocks := EXT4_MAX_BLOCKS }

/-- A world with one file `name` holding `data` in directory `dbDir`, and a file manager just
made for that directory. -/
def World.withFile (dbDir name : String) (data : List Byte) : World :=
  { disk := Disk.set (fun _ => none) (Join dbDir name) data, fm := NewFileManager dbDir,
    dirs := mkdirAll (fun _ => false) dbDir, maxBlocks := EXT4_MAX_BLOCKS }

/-- The sizes are those of a file system: its largest file size is an int64, no file is
larger, and a file of one block is not too large. -/
def World.Sized (w : World) : Prop :=
  w.maxBytes < 9223372036854775808 ∧
  (∀ path data, w.disk path = some data → data.length ≤ w.maxBytes) ∧
  0 < w.maxBlocks

/-- The state between two calls of one goroutine: nobody holds the map lock, every stored
handle was opened on the path of its name and that file exists, and the sizes are those of a
file system. -/
def World.WF (w : World) : Prop :=
  (w.fm.mu = RWMutex.free ∧
    ∀ name file, w.fm.openFiles name = some file →
      file.path = Join w.fm.dbDir name ∧ ∃ data, w.disk file.path = some data) ∧
  w.Sized

/-- The system takes the making of a regular file on `path`: the path holds no file and
`os.OpenFile` with `O_CREATE` has no error to report for it (the name is well-formed, it is no
directory, and every directory on the way exists). -/
def World.CanCreate (w : World) (path : String) : Prop :=
  w.disk path = none ∧ openError w.disk w.dirs path = none

/-- Every file has a length that is a multiple of `BLOCK_SIZE`. -/
def Disk.Aligned (disk : Disk) : Prop :=
  ∀ path data, disk path = some data → data.length % BLOCK_SIZE = 0

/-- The bytes stored under a path; a missing file stores none. -/
def Disk.bytes (disk : Disk) (path : String) : List Byte := (disk path).getD []

/-- Successive `Page.Append` calls on one file name, one per page, each made when the one
before it has returned: the world afterwards and the returned values in call order. -/
def appendEach (w : World) (filename : String) :
    List Page → Outcome (World × List (Except IOError Block))
  | [] => .ret (w, [])
  | p :: ps =>
    (p.Append w filename).bind fun r =>
      (appendEach r.1 filename ps).bind fun t => .ret (t.1, r.2.2 :: t.2)

/-- The world after a transfer through the handle of `name`: the file at `path` holds `data`
and the handle stands at `pos`. -/
def World.transferred (w : World) (name path : String) (data : List Byte) (pos : Nat) : World :=
  World.setHandle { w with disk := w.disk.set path data } name ⟨path, pos⟩

/-- The buffers of a list of pages, one after the other. -/
def concatContents : List Page → List Byte
  | [] => []
  | p :: ps => p.contents ++ concatContents ps

/-! ## Strings as sequences of runes -/

/-- The number of bytes the first rune of a non-empty string takes, as `utf8.DecodeRuneInString`
and `utf8.RuneCountInString` see it: one byte for ASCII and for every byte that does not
start a well-formed encoding (such a byte counts as one rune), else the two, three or four
bytes of the encoding. -/
def runeWidth : List Byte → Nat
  | [] => 0
  | c :: rest =>
    if c.val < 128 then 1
    else if c.val < 194 ∨ 244 < c.val then 1
    else
      let size := if c.val < 224 then 2 else if c.val < 240 then 3 else 4
      let lo := if c.val = 224 then 160 else if c.val = 240 then 144 else 128
      let hi := if c.val = 237 then 159 else if c.val = 244 then 143 else 191
      if rest.length + 1 < size then 1
      else
        match rest with
        | [] => 1
        | c1 :: r1 =>
          if c1.val < lo ∨ hi < c1.val then 1
          else if size = 2 then 2
          else
            match r1 with
            | [] => 1
            | c2 :: r2 =>
              if c2.val < 128 ∨ 191 < c2.val then 1
              else if size = 3 then 3
              else
                match r2 with
                | [] => 1
                | c3 :: _ => if c3.val < 128 ∨ 191 < c3.val then 1 else 4

/-- The loop of `utf8.RuneCountInString`, with a bound on the number of iterations. -/
def runeCountFuel : Nat → List Byte → Nat
  | 0, _ => 0
  | _ + 1, [] => 0
  | fuel + 1, c :: rest => 1 + runeCountFuel fuel ((c :: rest).drop (runeWidth (c :: rest)))

/-- The number of characters (Unicode code points) of a Go string,
`utf8.RuneCountInString(s)`: every iteration consumes at least one byte, so `len(s)`
iterations are enough. -/
def runeCount (s : GoString) : Nat := runeCountFuel s.length s

/-! ## The page a call leaves behind -/

/-- How a call of a setter ends, with the page as it stands then: after the return, after the
panic has unwound through the deferred unlock, or at the lock on which the goroutine blocks. -/
inductive PageRun where
  | ret (p : Page)
  | panic (p : Page)
  | blocked (p : Page)
  deriving DecidableEq

/-- The page as the call leaves it. -/
def PageRun.page : PageRun → Page
  | .ret p => p
  | .panic p => p
  | .blocked p => p

/-- The way the call ends, without the page of a call that does not return. -/
def PageRun.outcome : PageRun → Outcome Page
  | .ret p => .ret p
  | .panic _ => .panic
  | .blocked _ => .blocked

/-- A deferred `mu.Unlock()` that runs while a panic unwinds. -/
def unlockDeferred (m : RWMutex) : RWMutex :=
  match m.Unlock with
  | .ret m2 => m2
  | _ => m

/-- `Page.SetInt` (page.go lines 85-93) once more, keeping the page of every ending. -/
def Page.runSetInt (p : Page) (offset : Int) (val : Int) : PageRun :=
  match p.mu.Lock with
  | .blocked => .blocked p
  | .panic => .panic p
  | .ret mu1 =>
    match copyAt p.contents offset (putInt32LE val) with
    | none => .panic { p with mu := unlockDeferred mu1 }
    | some contents =>
      match mu1.Unlock with
      | .ret mu2 => .ret { mu := mu2, contents := contents }
      | .panic => .panic { mu := mu1, contents := contents }
      | .blocked => .blocked { mu := mu1, contents := contents }

/-- `Page.SetString` (page.go lines 111-120) once more, keeping the page of every ending. -/
def Page.runSetString (p : Page) (offset : Int) (val : GoString) : PageRun :=
  match p.mu.Lock with
  | .blocked => .blocked p
  | .panic => .panic p
  | .ret mu1 =>
    match Page.runSetInt { p with mu := mu1 } offset (toInt32 val.length) with
    | .blocked p1 => .blocked p1
    | .panic p1 => .panic { p1 with mu := unlockDeferred p1.mu }
    | .ret p1 =>
      match copyAt p1.contents (offset + INT_SIZE) val with
      | none => .panic { p1 with mu := unlockDeferred p1.mu }
      | some contents =>
        match p1.mu.Unlock with
        | .ret mu2 => .ret { mu := mu2, contents := contents }
        | .panic => .panic { mu := p1.mu, contents := contents }
        | .blocked => .blocked { mu := p1.mu, contents := contents }

/-! ## Lemmas: integers and slices -/

theorem readInt32LE_putInt32LE (v : Int) (h1 : -2147483648 ≤ v) (h2 : v < 2147483648) :
    readInt32LE (putInt32LE v) = v := by
  simp only [putInt32LE, readInt32LE, byteOf, toInt32]
  have hu : ((v % 4294967296).toNat : Int) = v % 4294967296 :=
    Int.toNat_of_nonneg (Int.emod_nonneg _ (by decide))
  generalize (v % 4294967296).toNat = u at hu ⊢
  have hlt : (u : Int) < 4294967296 := by rw [hu]; exact Int.emod_lt_of_pos _ (by decide)
  have : u % 256 + 256 * (u / 256 % 256) + 65536 * (u / 65536 % 256)
      + 16777216 * (u / 16777216 % 256) = u := by omega
  rw [this, hu]
  omega

theorem putInt32LE_length (v : Int) : (putInt32LE v).length = 4 := rfl

theorem take_drop_splice (l s : List Byte) (n : Nat) (h : n ≤ l.length) :
    ((l.take n ++ s ++ l.drop (n + s.length)).drop n).take s.length = s := by
  have : (l.take n).length = n := by simp [h]
  rw [List.append_assoc, List.drop_append_eq_append_drop, this, Nat.sub_self, List.drop_zero,
    List.drop_eq_nil_of_le (by omega), List.nil_append]
  simp

theorem splice_length (l s : List Byte) (n : Nat) (h : n + s.length ≤ l.length) :
    (l.take n ++ s ++ l.drop (n + s.length)).length = l.length := by
  simp only [List.length_append, List.length_take, List.length_drop]
  omega

theorem copyAt_fits (dst src : List Byte) (o : Int) (h0 : 0 ≤ o)
    (h1 : o + src.length ≤ dst.length) :
    copyAt dst o src = some (dst.take o.toNat ++ src ++ dst.drop (o.toNat + src.length)) := by
  have hk : min (dst.length - o.toNat) src.length = src.length := by omega
  have hc : 0 ≤ o ∧ o ≤ (dst.length : Int) := ⟨h0, by omega⟩
  simp only [copyAt, hc, and_self, if_true, hk, List.take_length]

theorem slice_splice (l s : List Byte) (o : Int) (h0 : 0 ≤ o) (h1 : o + s.length ≤ l.length) :
    slice (l.take o.toNat ++ s ++ l.drop (o.toNat + s.length)) o (o + s.length) = some s := by
  have hn : o.toNat + s.length ≤ l.length := by omega
  have hlen := splice_length l s o.toNat hn
  have hc : 0 ≤ o ∧ o ≤ o + (s.length : Int) ∧
      o + (s.length : Int) ≤ ((l.take o.toNat ++ s ++ l.drop (o.toNat + s.length)).length : Int) := by
    refine ⟨h0, by omega, ?_⟩
    rw [hlen]; exact h1
  have hd : (o + (s.length : Int) - o).toNat = s.length := by omega
  simp only [slice, hc, and_self, if_true, hd]
  rw [take_drop_splice l s o.toNat (by omega)]

/-! ## Lemmas: pages -/

/-- What `SetInt` does on an unlocked page when the four bytes fit. -/
theorem SetInt_ret (p : Page) (o v : Int) (hmu : p.mu = RWMutex.free) (h0 : 0 ≤ o)
    (h1 : o + 4 ≤ p.contents.length) :
    p.SetInt o v = .ret ⟨RWMutex.free,
      p.contents.take o.toNat ++ putInt32LE v ++ p.contents.drop (o.toNat + 4)⟩ := by
  have hc := copyAt_fits p.contents (putInt32LE v) o h0 (by rw [putInt32LE_length]; exact_mod_cast h1)
  rw [putInt32LE_length] at hc
  simp [Page.SetInt, hmu, RWMutex.free, RWMutex.Lock, RWMutex.Unlock, Outcome.bind, hc]

/-- What `GetInt` does on an unlocked page when the four bytes are inside the buffer. -/
theorem GetInt_ret (p : Page) (o : Int) (hmu : p.mu = RWMutex.free) (b : List Byte)
    (hs : slice p.contents o (o + INT_SIZE) = some b) :
    p.GetInt o = .ret (p, readInt32LE b) := by
  cases p with
  | mk mu contents =>
    simp only at hmu hs
    subst hmu
    simp [Page.GetInt, RWMutex.free, RWMutex.RLock, RWMutex.RUnlock, Outcome.bind, hs]

/-! ## Typed accessors -/

/-- C1: for every int32 value `v`, every unlocked page of `BLOCK_SIZE` bytes and every offset
`o` with `0 ≤ o` and `o + 4 ≤ BLOCK_SIZE`, `SetInt(o, v)` returns and `GetInt(o)` on the
resulting page returns exactly `v`, leaving the page as it is. -/
theorem SetInt_GetInt_roundtrip (p : Page) (o v : Int) (hmu : p.mu = RWMutex.free)
    (hlen : p.contents.length = BLOCK_SIZE) (ho : 0 ≤ o) (ho4 : o + 4 ≤ BLOCK_SIZE)
    (hv1 : -2147483648 ≤ v) (hv2 : v < 2147483648) :
    ∃ p1, p.SetInt o v = .ret p1 ∧ p1.GetInt o = .ret (p1, v) := by
  have h1 : o + 4 ≤ p.contents.length := by rw [hlen]; exact ho4
  refine ⟨_, SetInt_ret p o v hmu ho h1, ?_⟩
  have hs := slice_splice p.contents (putInt32LE v) o ho
    (by rw [putInt32LE_length]; exact_mod_cast h1)
  rw [putInt32LE_length] at hs
  have hg := GetInt_ret ⟨RWMutex.free,
      p.contents.take o.toNat ++ putInt32LE v ++ p.contents.drop (o.toNat + 4)⟩ o rfl
      (putInt32LE v) (by simpa [INT_SIZE] using hs)
  rw [hg, readInt32LE_putInt32LE v hv1 hv2]

/-- Witness for C1: the value -2 at offset 4092, the last admissible one, of a new page. -/
theorem SetInt_GetInt_roundtrip_witness :
    ∃ p1, NewPage.SetInt 4092 (-2) = .ret p1 ∧ p1.GetInt 4092 = .ret (p1, -2) :=
  SetInt_GetInt_roundtrip NewPage 4092 (-2) rfl (by simp [NewPage]) (by decide) (by decide)
    (by decide) (by decide)

theorem splice_getElem? (l s : List Byte) (n i : Nat) (h : n ≤ l.length) (hi : i < s.length) :
    (l.take n ++ s ++ l.drop (n + s.length))[n + i]? = s[i]? := by
  have hn : (l.take n).length = n := by simp [h]
  rw [List.append_assoc, List.getElem?_append_right (by omega), hn, Nat.add_sub_cancel_left,
    List.getElem?_append_left hi]

/-- C6: for every value `v` (an int32 in particular), every unlocked page of `BLOCK_SIZE`
bytes and every offset `o` with `0 ≤ o` and `o + 4 ≤ BLOCK_SIZE`, `SetInt(o, v)` returns and
the bytes at `o`, `o+1`, `o+2`, `o+3` are the little-endian two's-complement encoding of `v`:
byte `o+i` is `((v mod 2^32) / 256^i) mod 256`, least significant byte first. -/
theorem SetInt_little_endian (p : Page) (o v : Int) (hmu : p.mu = RWMutex.free)
    (hlen : p.contents.length = BLOCK_SIZE) (ho : 0 ≤ o) (ho4 : o + 4 ≤ BLOCK_SIZE) :
    ∃ p1, p.SetInt o v = .ret p1 ∧ ∀ i : Nat, i < 4 →
      (p1.contents[o.toNat + i]?).map (fun b => (b.val : Int))
        = some (v % 4294967296 / 256 ^ i % 256) := by
  have h1 : o + 4 ≤ p.contents.length := by rw [hlen]; exact ho4
  refine ⟨_, SetInt_ret p o v hmu ho h1, ?_⟩
  intro i hi
  have hg := splice_getElem? p.contents (putInt32LE v) o.toNat i (by omega)
    (by rw [putInt32LE_length]; exact hi)
  rw [putInt32LE_length] at hg
  simp only [hg]
  have hu : ((v % 4294967296).toNat : Int) = v % 4294967296 :=
    Int.toNat_of_nonneg (Int.emod_nonneg _ (by decide))
  rw [← hu]
  have hcases : i = 0 ∨ i = 1 ∨ i = 2 ∨ i = 3 := by omega
  rcases hcases with h | h | h | h <;> subst h <;> simp [putInt32LE, byteOf]

/-- Witness for C6: the value -2 at offset 0 of a new page. -/
theorem SetInt_little_endian_witness :
    ∃ p1, NewPage.SetInt 0 (-2) = .ret p1 ∧ ∀ i : Nat, i < 4 →
      (p1.contents[(0 : Int).toNat + i]?).map (fun b => (b.val : Int))
        = some ((-2 : Int) % 4294967296 / 256 ^ i % 256) :=
  SetInt_little_endian NewPage 0 (-2) rfl (by simp [NewPage]) (by decide) (by decide)

/-! ## The nested lock in `SetString` -/

/-- `SetInt` blocks on a page whose lock is held for writing. -/
theorem SetInt_blocked_of_writer (p : Page) (o v : Int) (h : p.mu.writer = true) :
    p.SetInt o v = .blocked := by
  simp [Page.SetInt, RWMutex.Lock, Outcome.bind, h]

/-- `SetString` never returns: either the page lock is held already, or `SetString` takes it
and blocks in `SetInt`, which asks for the same lock. -/
theorem SetString_blocked (p : Page) (o : Int) (s : GoString) : p.SetString o s = .blocked := by
  unfold Page.SetString RWMutex.Lock
  by_cases h : p.mu.writer = false ∧ p.mu.readers = 0
  · rw [if_pos h]
    simp only [Outcome.bind]
    rw [SetInt_blocked_of_writer _ _ _ rfl]
  · rw [if_neg h]
    rfl

/-- C2: `SetString` followed by `GetString` does not give the string back, because
`SetString` does not return: on a new page, `SetString(0, "hi")` takes the page lock and then
blocks for ever in `SetInt`, which asks for the lock again. -/
theorem SetString_GetString_blocked :
    NewPage.SetString 0 [104, 105] = Outcome.blocked ∧
    ¬ ∃ p1, NewPage.SetString 0 [104, 105] = Outcome.ret p1 ∧
        p1.GetString 0 = Outcome.ret (p1, [104, 105]) := by
  refine ⟨SetString_blocked _ _ _, ?_⟩
  rintro ⟨p1, h, -⟩
  rw [SetString_blocked] at h
  cases h

/-- C7: `SetString` leaves no length prefix and no payload to inspect, because it does not
return: on a new page, `SetString(8, "é")` (two bytes, one character) blocks for ever, and so
does `SetString` on every page, at every offset, with every string. -/
theorem SetString_layout_blocked :
    NewPage.SetString 8 [195, 169] = Outcome.blocked ∧
    ∀ (p : Page) (o : Int) (s : GoString), ¬ ∃ p1, p.SetString o s = Outcome.ret p1 := by
  refine ⟨SetString_blocked _ _ _, ?_⟩
  rintro p o s ⟨p1, h⟩
  rw [SetString_blocked] at h
  cases h

/-! ## The buffer is never resized -/

theorem Outcome.bind_eq_ret {α β : Type} {x : Outcome α} {f : α → Outcome β} {b : β}
    (h : x.bind f = .ret b) : ∃ a, x = .ret a ∧ f a = .ret b := by
  cases x with
  | ret a => exact ⟨a, rfl, h⟩
  | panic => cases h
  | blocked => cases h

theorem copyAt_length (dst src r : List Byte) (lo : Int) (h : copyAt dst lo src = some r) :
    r.length = dst.length := by
  unfold copyAt at h
  split at h
  · rename_i hc
    simp only [Option.some.injEq] at h
    subst h
    simp only [List.length_append, List.length_take, List.length_drop]
    omega
  · cases h

theorem SetInt_length (p p1 : Page) (o v : Int) (h : p.SetInt o v = .ret p1) :
    p1.contents.length = p.contents.length := by
  unfold Page.SetInt at h
  obtain ⟨mu1, -, h⟩ := Outcome.bind_eq_ret h
  dsimp only at h
  split at h
  · cases h
  · rename_i c hc
    obtain ⟨mu2, -, h⟩ := Outcome.bind_eq_ret h
    cases h
    exact copyAt_length _ _ _ _ hc

theorem GetInt_contents (p : Page) (o : Int) (r : Page × Int) (h : p.GetInt o = .ret r) :
    r.1.contents = p.contents := by
  unfold Page.GetInt at h
  obtain ⟨mu1, -, h⟩ := Outcome.bind_eq_ret h
  split at h
  · cases h
  · obtain ⟨mu2, -, h⟩ := Outcome.bind_eq_ret h
    cases h
    rfl

theorem GetString_contents (p : Page) (o : Int) (r : Page × GoString)
    (h : p.GetString o = .ret r) : r.1.contents = p.contents := by
  unfold Page.GetString at h
  obtain ⟨mu1, -, h⟩ := Outcome.bind_eq_ret h
  obtain ⟨g, hg, h⟩ := Outcome.bind_eq_ret h
  have hc := GetInt_contents _ _ _ hg
  dsimp only at h
  split at h
  · cases h
  · obtain ⟨mu2, -, h⟩ := Outcome.bind_eq_ret h
    cases h
    exact hc

theorem OSFile_Read_length (f : OSFile) (disk : Disk) (p : List Byte) :
    (f.Read disk p).2.1.length = p.length := by
  unfold OSFile.Read
  split
  · rfl
  · simp only
    split
    · rfl
    · split
      · rfl
      · split
        · rfl
        · simp only [List.length_append, List.length_take, List.length_drop]
          omega

theorem FileManager_Read_length (w : World) (blk : Block) (p : List Byte)
    (r : World × List Byte × Option IOError) (h : FileManager.Read w blk p = .ret r) :
    r.2.1.length = p.length := by
  unfold FileManager.Read at h
  obtain ⟨g, -, h⟩ := Outcome.bind_eq_ret h
  split at h
  · cases h; rfl
  · simp only at h
    split at h
    · cases h; rfl
    · cases h
      exact OSFile_Read_length _ _ _

theorem Page_Read_length (w : World) (p : Page) (blk : Block)
    (r : World × Page × Option IOError) (h : p.Read w blk = .ret r) :
    r.2.1.contents.length = p.contents.length := by
  unfold Page.Read at h
  obtain ⟨mu1, -, h⟩ := Outcome.bind_eq_ret h
  obtain ⟨g, hg, h⟩ := Outcome.bind_eq_ret h
  obtain ⟨mu2, -, h⟩ := Outcome.bind_eq_ret h
  cases h
  exact FileManager_Read_length _ _ _ _ hg

theorem Page_Write_contents (w : World) (p : Page) (blk : Block)
    (r : World × Page × Option IOError) (h : p.Write w blk = .ret r) :
    r.2.1.contents = p.contents := by
  unfold Page.Write at h
  obtain ⟨mu1, -, h⟩ := Outcome.bind_eq_ret h
  obtain ⟨g, -, h⟩ := Outcome.bind_eq_ret h
  obtain ⟨mu2, -, h⟩ := Outcome.bind_eq_ret h
  cases h
  rfl

theorem Page_Append_contents (w : World) (p : Page) (filename : String)
    (r : World × Page × Except IOError Block) (h : p.Append w filename = .ret r) :
    r.2.1.contents = p.contents := by
  unfold Page.Append at h
  obtain ⟨mu1, -, h⟩ := Outcome.bind_eq_ret h
  obtain ⟨g, -, h⟩ := Outcome.bind_eq_ret h
  obtain ⟨mu2, -, h⟩ := Outcome.bind_eq_ret h
  cases h
  rfl

theorem PageOp_run_length (op : PageOp) (w : World) (p : Page) (r : World × Page)
    (h : op.run w p = .ret r) : r.2.contents.length = p.contents.length := by
  cases op with
  | getInt o =>
    obtain ⟨g, hg, h⟩ := Outcome.bind_eq_ret h
    cases h
    rw [GetInt_contents _ _ _ hg]
  | setInt o v =>
    obtain ⟨g, hg, h⟩ := Outcome.bind_eq_ret h
    cases h
    exact SetInt_length _ _ _ _ hg
  | getString o =>
    obtain ⟨g, hg, h⟩ := Outcome.bind_eq_ret h
    cases h
    rw [GetString_contents _ _ _ hg]
  | setString o v =>
    obtain ⟨g, hg, h⟩ := Outcome.bind_eq_ret h
    rw [SetString_blocked] at hg
    cases hg
  | read blk =>
    obtain ⟨g, hg, h⟩ := Outcome.bind_eq_ret h
    cases h
    exact Page_Read_length _ _ _ _ hg
  | write blk =>
    obtain ⟨g, hg, h⟩ := Outcome.bind_eq_ret h
    cases h
    rw [Page_Write_contents _ _ _ _ hg]
  | append filename =>
    obtain ⟨g, hg, h⟩ := Outcome.bind_eq_ret h
    cases h
    rw [Page_Append_contents _ _ _ _ hg]

theorem runOps_length (ops : List PageOp) (w : World) (p : Page) (r : World × Page)
    (h : runOps w p ops = .ret r) : r.2.contents.length = p.contents.length := by
  induction ops generalizing w p with
  | nil =>
    cases h
    rfl
  | cons op ops ih =>
    obtain ⟨g, hg, h⟩ := Outcome.bind_eq_ret h
    rw [ih _ _ h, PageOp_run_length _ _ _ _ hg]

/-- C8: the buffer of a page made by `NewPage` has `BLOCK_SIZE` zero bytes, and after every
sequence of `GetInt`, `SetInt`, `GetString`, `SetString`, `Read`, `Write` and `Append` calls
that all return, in any world, it still has exactly `BLOCK_SIZE` bytes. -/
theorem Page_buffer_length_invariant (w : World) (ops : List PageOp) (w1 : World) (p1 : Page)
    (h : runOps w NewPage ops = .ret (w1, p1)) :
    NewPage.contents = List.replicate 4096 0 ∧ NewPage.contents.length = BLOCK_SIZE ∧
      p1.contents.length = BLOCK_SIZE := by
  have h0 : NewPage.contents.length = BLOCK_SIZE := by simp [NewPage]
  refine ⟨rfl, h0, ?_⟩
  rw [← h0]
  exact runOps_length ops w NewPage (w1, p1) h

/-! ## Lemmas: writing into a file -/

theorem writeAt_length (data p : List Byte) (pos : Nat) (hp : p.length ≠ 0) :
    (writeAt data pos p).length = max data.length (pos + p.length) := by
  simp only [writeAt, hp, if_false, List.length_append, List.length_take, List.length_drop,
    List.length_replicate]
  omega

theorem writeAt_read_back (data p : List Byte) (pos : Nat) (hp : p.length ≠ 0) :
    ((writeAt data pos p).drop pos).take p.length = p := by
  have hpre : (data.take pos ++ List.replicate (pos - data.length) (0 : Byte)).length = pos := by
    simp only [List.length_append, List.length_take, List.length_replicate]
    omega
  simp only [writeAt, hp, if_false]
  rw [List.append_assoc, List.drop_append_eq_append_drop, hpre, Nat.sub_self, List.drop_zero,
    List.drop_eq_nil_of_le (by omega), List.nil_append]
  simp

theorem writeAt_beyond (data p : List Byte) (pos : Nat) (hp : p.length ≠ 0)
    (h : data.length ≤ pos) :
    writeAt data pos p = data ++ List.replicate (pos - data.length) 0 ++ p := by
  simp only [writeAt, hp, if_false]
  rw [List.take_of_length_le h, List.drop_eq_nil_of_le (by omega), List.append_nil]

/-! ## Lemmas: handle resolution -/

theorem RLock_RUnlock {β : Type} (m : RWMutex) (h : m.writer = false) (f : RWMutex → Outcome β) :
    (m.RLock.bind fun m1 => m1.RUnlock.bind f) = f m := by
  cases m with
  | mk wr rd =>
    simp only at h
    subst h
    simp [RWMutex.RLock, RWMutex.RUnlock, Outcome.bind]

theorem RLock_ret (m m1 : RWMutex) (h : m.RLock = .ret m1) : m.writer = false := by
  unfold RWMutex.RLock at h
  split at h
  · assumption
  · cases h

theorem Lock_Unlock {β : Type} (m : RWMutex) (h : m = RWMutex.free) (f : RWMutex → Outcome β) :
    (m.Lock.bind fun m1 => m1.Unlock.bind f) = f RWMutex.free := by
  subst h
  simp [RWMutex.Lock, RWMutex.Unlock, RWMutex.free, Outcome.bind]

/-- A name with a stored handle: the handle is returned, nothing changes. -/
theorem getOrOpen_cached (w : World) (name : String) (create : Bool) (file : OSFile)
    (hw : w.fm.mu.writer = false) (hc : w.fm.openFiles name = some file) :
    FileManager.getOrOpen w name create = .ret (w, .ok file) := by
  unfold FileManager.getOrOpen
  rw [RLock_RUnlock _ hw]
  simp only [hc]

theorem RUnlock_writer (m m1 : RWMutex) (h : m.RUnlock = .ret m1) : m1.writer = m.writer := by
  unfold RWMutex.RUnlock at h
  split at h
  · cases h
  · cases h; rfl

theorem Unlock_writer (m m1 : RWMutex) (h : m.Unlock = .ret m1) : m1.writer = false := by
  unfold RWMutex.Unlock at h
  split at h
  · cases h; rfl
  · cases h

/-- After handle resolution has returned, no writer holds the map lock. -/
theorem getOrOpen_writer (w : World) (name : String) (create : Bool)
    (g : World × Except IOError OSFile) (h : FileManager.getOrOpen w name create = .ret g) :
    g.1.fm.mu.writer = false := by
  unfold FileManager.getOrOpen at h
  obtain ⟨m1, h1, h⟩ := Outcome.bind_eq_ret h
  dsimp only at h
  obtain ⟨m2, h2, h⟩ := Outcome.bind_eq_ret h
  have hm2 : m2.writer = false := by
    rw [RUnlock_writer _ _ h2]
    unfold RWMutex.RLock at h1
    split at h1
    · cases h1; assumption
    · cases h1
  split at h
  · cases h; exact hm2
  · split at h
    · cases h; exact hm2
    · obtain ⟨m3, -, h⟩ := Outcome.bind_eq_ret h
      obtain ⟨m4, h4, h⟩ := Outcome.bind_eq_ret h
      cases h
      exact Unlock_writer _ _ h4

/-- A handle that handle resolution returns is the one stored under the name. -/
theorem getOrOpen_stored (w : World) (name : String) (create : Bool)
    (g : World × Except IOError OSFile) (file : OSFile)
    (h : FileManager.getOrOpen w name create = .ret g) (hok : g.2 = .ok file) :
    g.1.fm.openFiles name = some file := by
  unfold FileManager.getOrOpen at h
  obtain ⟨m1, h1, h⟩ := Outcome.bind_eq_ret h
  dsimp only at h
  obtain ⟨m2, h2, h⟩ := Outcome.bind_eq_ret h
  split at h
  · rename_i f hf
    cases h
    simp only at hok
    cases hok
    exact hf
  · split at h
    · cases h; cases hok
    · rename_i f hf
      obtain ⟨m3, -, h⟩ := Outcome.bind_eq_ret h
      obtain ⟨m4, h4, h⟩ := Outcome.bind_eq_ret h
      cases h
      simp only at hok
      cases hok
      simp [World.setHandle]

/-- A successful `FileManager.Write` has stored the buffer in the file of the handle now kept
under the block's file name, at the wrapped byte offset of the block. -/
theorem FileManager_Write_ok_inv (w w1 : World) (blk : Block) (p : List Byte)
    (h : FileManager.Write w blk p = .ret (w1, none)) :
    ∃ fpath data, 0 ≤ toInt64 (blk.Number * BLOCK_SIZE) ∧
      toInt64 (blk.Number * BLOCK_SIZE) ≤ fileLimit w1.maxBytes ∧
      (toInt64 (blk.Number * BLOCK_SIZE)).toNat + p.length < 9223372036854775808 ∧
      w1.fm.mu.writer = false ∧
      w1.fm.openFiles blk.FileName
        = some ⟨fpath, (toInt64 (blk.Number * BLOCK_SIZE)).toNat + p.length⟩ ∧
      w1.disk fpath = some (writeAt data (toInt64 (blk.Number * BLOCK_SIZE)).toNat p) := by
  unfold FileManager.Write at h
  obtain ⟨g, hg, h⟩ := Outcome.bind_eq_ret h
  have hwr := getOrOpen_writer _ _ _ _ hg
  split at h
  · cases h
  · rename_i file hfile
    dsimp only at h
    unfold OSFile.Seek OSFile.Write at h
    cases hd : g.1.disk file.path with
    | none => simp [hd] at h
    | some data =>
      simp only [hd, if_true, Nat.cast_zero, zero_add, le_refl, true_and, Nat.zero_le] at h
      by_cases hpos : 0 ≤ toInt64 (blk.Number * BLOCK_SIZE) ∧
          toInt64 (blk.Number * BLOCK_SIZE) ≤ fileLimit g.1.maxBytes
      · simp only [hpos, and_self, if_true, hd] at h
        by_cases hinv : p.length ≠ 0 ∧
            9223372036854775808 ≤ (toInt64 (blk.Number * BLOCK_SIZE)).toNat + p.length
        · simp only [if_pos hinv] at h
          cases h
        · simp only [if_neg hinv] at h
          by_cases hfull : p.length ≠ 0 ∧
              fileLimit g.1.maxBytes ≤ (toInt64 (blk.Number * BLOCK_SIZE)).toNat
          · simp only [if_pos hfull] at h
            cases h
          · simp only [if_neg hfull] at h
            by_cases hbig : p.length ≠ 0 ∧
                fileLimit g.1.maxBytes < (toInt64 (blk.Number * BLOCK_SIZE)).toNat + p.length
            · simp only [if_pos hbig] at h
              cases h
            · simp only [if_neg hbig] at h
              cases h
              have hlim : fileLimit g.1.maxBytes ≤ 9223372036854775807 := Nat.min_le_right _ _
              refine ⟨file.path, data, hpos.1, hpos.2, ?_, hwr, ?_, ?_⟩
              · have h2 := hpos.2
                by_cases hp0 : p.length = 0
                · omega
                · have := not_and.mp hinv hp0
                  omega
              · simp [World.setHandle]
              · simp [World.setHandle, Disk.set]
      · simp [hpos] at h

/-- `FileManager.Read` through a stored handle, when the file holds the whole range. -/
theorem FileManager_Read_cached (w : World) (blk : Block) (p : List Byte) (file : OSFile)
    (data : List Byte) (hw : w.fm.mu.writer = false)
    (hc : w.fm.openFiles blk.FileName = some file) (hd : w.disk file.path = some data)
    (hpos : 0 ≤ toInt64 (blk.Number * BLOCK_SIZE))
    (hseek : toInt64 (blk.Number * BLOCK_SIZE) ≤ fileLimit w.maxBytes)
    (hsmall : (toInt64 (blk.Number * BLOCK_SIZE)).toNat + p.length < 9223372036854775808)
    (hp : p.length ≠ 0)
    (havail : (toInt64 (blk.Number * BLOCK_SIZE)).toNat + p.length ≤ data.length) :
    FileManager.Read w blk p = .ret
      (w.setHandle blk.FileName
          ⟨file.path, (toInt64 (blk.Number * BLOCK_SIZE)).toNat + p.length⟩,
        (data.drop (toInt64 (blk.Number * BLOCK_SIZE)).toNat).take p.length, none) := by
  have hk : min p.length (data.length - (toInt64 (blk.Number * BLOCK_SIZE)).toNat) = p.length := by
    omega
  have hk0 : ¬ p.length = 0 := hp
  have hs : ¬ 9223372036854775808 ≤ (toInt64 (blk.Number * BLOCK_SIZE)).toNat + p.length := by
    omega
  unfold FileManager.Read
  rw [getOrOpen_cached w _ false file hw hc]
  simp only [Outcome.bind, OSFile.Seek, OSFile.Read, hd, if_true, Nat.cast_zero, zero_add,
    le_refl, true_and, Nat.zero_le, hpos, hseek, and_self, hk, hk0, hs, if_false,
    List.drop_length, List.append_nil]

/-! ## Write, then read -/

/-- C3: for every file name `f`, every block number `n` (so every `n ≥ 0`) and all pages `P1`
and `P2` of `BLOCK_SIZE` bytes: when `P1.Write(Block(f, n))` returns without error (which it
does only on a file that exists), `P2.Read(Block(f, n))` on an unlocked page bound to the same
file manager returns without error and leaves in `P2` exactly the buffer of `P1`, whatever
`P2` held before. -/
theorem Page_Write_Read_roundtrip (w w1 : World) (P1 P1a P2 : Page) (f : String) (n : Int)
    (hlen1 : P1.contents.length = BLOCK_SIZE) (hmu2 : P2.mu = RWMutex.free)
    (hlen2 : P2.contents.length = BLOCK_SIZE)
    (hwrite : P1.Write w (NewBlock f n) = .ret (w1, P1a, none)) :
    ∃ w2, P2.Read w1 (NewBlock f n) = .ret (w2, ⟨RWMutex.free, P1.contents⟩, none) := by
  unfold Page.Write at hwrite
  obtain ⟨mu1, -, hwrite⟩ := Outcome.bind_eq_ret hwrite
  obtain ⟨⟨gw, ge⟩, hg, hwrite⟩ := Outcome.bind_eq_ret hwrite
  obtain ⟨mu2, -, hwrite⟩ := Outcome.bind_eq_ret hwrite
  cases hwrite
  obtain ⟨fpath, data, hpos, hseek, hsmall, hwr, hc, hd⟩ :=
    FileManager_Write_ok_inv _ _ _ _ hg
  have hp1 : P1.contents.length ≠ 0 := by rw [hlen1]; decide
  have hp2 : P2.contents.length ≠ 0 := by rw [hlen2]; decide
  have hl : P2.contents.length = P1.contents.length := by rw [hlen1, hlen2]
  have hr := FileManager_Read_cached _ (NewBlock f n) P2.contents _ _ hwr hc hd hpos hseek
    (by rw [hl]; exact hsmall) hp2
    (by rw [writeAt_length _ _ _ hp1, hl]; exact le_max_right _ _)
  rw [hl, writeAt_read_back _ _ _ hp1] at hr
  unfold Page.Read
  rw [hr, hmu2]
  exact ⟨_, rfl⟩

/-! ## Lemmas: the file manager between calls -/

theorem setHandle_disk_setHandle (w : World) (name : String) (f1 f2 : OSFile) (d : Disk) :
    World.setHandle { w.setHandle name f1 with disk := d } name f2
      = World.setHandle { w with disk := d } name f2 := by
  simp only [World.setHandle]
  congr 2
  funext q
  split <;> rfl

theorem setHandle_setHandle (w : World) (name : String) (f1 f2 : OSFile) :
    (w.setHandle name f1).setHandle name f2 = w.setHandle name f2 := by
  simp only [World.setHandle]
  congr 2
  funext q
  split <;> rfl

theorem setHandle_same (w : World) (name : String) (file : OSFile)
    (h : w.fm.openFiles name = some file) : w.setHandle name file = w := by
  cases w with
  | mk disk fm dirs maxBytes =>
    cases fm with
    | mk mu dbDir openFiles =>
      simp only [World.setHandle]
      congr 2
      funext q
      split
      · rename_i hq
        subst hq
        exact h.symm
      · rfl

theorem fileLimit_eq (w : World) (hsz : w.Sized) : fileLimit w.maxBytes = w.maxBytes := by
  have := hsz.1
  unfold fileLimit
  omega

theorem EXT4_MAX_BYTES_eq : EXT4_MAX_BLOCKS * BLOCK_SIZE = EXT4_MAX_BYTES := by
  norm_num [EXT4_MAX_BLOCKS, BLOCK_SIZE, EXT4_MAX_BYTES]

theorem World.fresh_maxBytes (dbDir : String) : (World.fresh dbDir).maxBytes = EXT4_MAX_BYTES :=
  EXT4_MAX_BYTES_eq

theorem World.withFile_maxBytes (dbDir name : String) (data : List Byte) :
    (World.withFile dbDir name data).maxBytes = EXT4_MAX_BYTES :=
  EXT4_MAX_BYTES_eq

theorem World.fresh_WF (dbDir : String) : (World.fresh dbDir).WF := by
  refine ⟨⟨rfl, ?_⟩, (by rw [World.fresh_maxBytes]; decide), ?_,
    (by show 0 < EXT4_MAX_BLOCKS; decide)⟩
  · intro name file h
    cases h
  · intro path data h
    cases h

theorem World.withFile_WF (dbDir name : String) (data : List Byte)
    (hsize : data.length ≤ EXT4_MAX_BYTES) : (World.withFile dbDir name data).WF := by
  refine ⟨⟨rfl, ?_⟩, (by rw [World.withFile_maxBytes]; decide), ?_,
    (by show 0 < EXT4_MAX_BLOCKS; decide)⟩
  · intro name file h
    cases h
  · intro path d h
    rw [World.withFile_maxBytes]
    simp only [World.withFile, Disk.set] at h
    split at h
    · cases h
      exact hsize
    · cases h

theorem World.withFile_bytes (dbDir name : String) (data : List Byte) :
    (World.withFile dbDir name data).disk.bytes
      (Join (World.withFile dbDir name data).fm.dbDir name) = data := by
  simp [Disk.bytes, World.withFile, Disk.set, NewFileManager]

theorem World.withFile_disk (dbDir name : String) (data : List Byte) :
    (World.withFile dbDir name data).disk (Join (World.withFile dbDir name data).fm.dbDir name)
      = some data := by
  simp [World.withFile, Disk.set, NewFileManager]

/-- Handle resolution on a file that exists: the handle is on the path of the name. -/
theorem getOrOpen_existing (w : World) (name : String) (create : Bool) (data : List Byte)
    (hwf : w.WF) (hd : w.disk (Join w.fm.dbDir name) = some data) :
    ∃ pos0, FileManager.getOrOpen w name create
      = .ret (w.setHandle name ⟨Join w.fm.dbDir name, pos0⟩, .ok ⟨Join w.fm.dbDir name, pos0⟩) := by
  obtain ⟨⟨hmu, hh⟩, hsz⟩ := hwf
  cases hc : w.fm.openFiles name with
  | some file =>
    obtain ⟨hpath, -⟩ := hh name file hc
    refine ⟨file.pos, ?_⟩
    have hf : (⟨Join w.fm.dbDir name, file.pos⟩ : OSFile) = file := by
      cases file; simp only at hpath; subst hpath; rfl
    rw [hf, setHandle_same w name file hc]
    exact getOrOpen_cached w name create file (by rw [hmu]; rfl) hc
  | none =>
    refine ⟨0, ?_⟩
    unfold FileManager.getOrOpen
    rw [RLock_RUnlock _ (by rw [hmu]; rfl)]
    simp only [hc, OpenFile, hd]
    rw [Lock_Unlock _ hmu]
    cases w with
    | mk disk fm dirs maxBytes =>
      cases fm with
      | mk mu dbDir openFiles =>
        simp only at hmu
        subst hmu
        rfl

/-- Handle resolution with `O_CREATE` on a path with no file, where the system takes the
making of one: an empty file is made. -/
theorem getOrOpen_create (w : World) (name : String) (hwf : w.WF)
    (hcr : w.CanCreate (Join w.fm.dbDir name)) :
    FileManager.getOrOpen w name true
      = .ret (World.setHandle { w with disk := w.disk.set (Join w.fm.dbDir name) [] } name
          ⟨Join w.fm.dbDir name, 0⟩, .ok ⟨Join w.fm.dbDir name, 0⟩) := by
  obtain ⟨⟨hmu, hh⟩, hsz⟩ := hwf
  obtain ⟨hd, he⟩ := hcr
  have hc : w.fm.openFiles name = none := by
    cases hc : w.fm.openFiles name with
    | none => rfl
    | some file =>
      obtain ⟨hpath, data, hdata⟩ := hh name file hc
      rw [hpath, hd] at hdata
      cases hdata
  unfold FileManager.getOrOpen
  rw [RLock_RUnlock _ (by rw [hmu]; rfl)]
  simp only [hc, OpenFile, hd, he, if_true]
  rw [Lock_Unlock _ hmu]
  cases w with
  | mk disk fm dirs maxBytes =>
    cases fm with
    | mk mu dbDir openFiles =>
      simp only at hmu
      subst hmu
      rfl

/-- Handle resolution on a path with no file that the system refuses to open or make: the
open error is returned and nothing changes. -/
theorem getOrOpen_error (w : World) (name : String) (create : Bool) (e : IOError)
    (hwf : w.WF) (hd : w.disk (Join w.fm.dbDir name) = none)
    (he : openError w.disk w.dirs (Join w.fm.dbDir name) = some e) :
    FileManager.getOrOpen w name create = .ret (w, .error e) := by
  obtain ⟨⟨hmu, hh⟩, hsz⟩ := hwf
  have hc : w.fm.openFiles name = none := by
    cases hc : w.fm.openFiles name with
    | none => rfl
    | some file =>
      obtain ⟨hpath, data, hdata⟩ := hh name file hc
      rw [hpath, hd] at hdata
      cases hdata
  unfold FileManager.getOrOpen
  rw [RLock_RUnlock _ (by rw [hmu]; rfl)]
  simp only [hc, OpenFile, hd, he]

/-- The handle after `file.Seek(pos, 0)` and the outcome of `file.Write(p)` on a file that
exists, when the write ends within the largest file size. -/
theorem fileLimit_le (maxBytes : Nat) : fileLimit maxBytes ≤ 9223372036854775807 :=
  Nat.min_le_right _ _

/-- A write that ends within the largest file size. -/
theorem OSFile_Write_fits (f : OSFile) (disk : Disk) (maxBytes : Nat) (p data : List Byte)
    (hd : disk f.path = some data) (hfit : f.pos + p.length ≤ fileLimit maxBytes) :
    f.Write disk maxBytes p
      = (⟨f.path, f.pos + p.length⟩, disk.set f.path (writeAt data f.pos p), none) := by
  have hlim := fileLimit_le maxBytes
  have h1 : ¬ (p.length ≠ 0 ∧ 9223372036854775808 ≤ f.pos + p.length) := by omega
  have h2 : ¬ (p.length ≠ 0 ∧ fileLimit maxBytes ≤ f.pos) := by omega
  have h3 : ¬ (p.length ≠ 0 ∧ fileLimit maxBytes < f.pos + p.length) := by omega
  simp only [OSFile.Write, hd, if_neg h1, if_neg h2, if_neg h3]

/-- A write of at least one byte at the largest file size: `EFBIG`, nothing is written. -/
theorem OSFile_Write_full (f : OSFile) (disk : Disk) (maxBytes : Nat) (p data : List Byte)
    (hd : disk f.path = some data) (hp : p.length ≠ 0)
    (hsmall : f.pos + p.length < 9223372036854775808) (hfull : fileLimit maxBytes ≤ f.pos) :
    f.Write disk maxBytes p = (f, disk, some .fileTooLarge) := by
  have h1 : ¬ (p.length ≠ 0 ∧ 9223372036854775808 ≤ f.pos + p.length) := by omega
  have h2 : p.length ≠ 0 ∧ fileLimit maxBytes ≤ f.pos := ⟨hp, hfull⟩
  simp only [OSFile.Write, hd, if_neg h1, if_pos h2]

/-- A write that starts below the largest file size and would end beyond it: the bytes that
fit are written, then `EFBIG`. -/
theorem OSFile_Write_cut (f : OSFile) (disk : Disk) (maxBytes : Nat) (p data : List Byte)
    (hd : disk f.path = some data) (hsmall : f.pos + p.length < 9223372036854775808)
    (hlt : f.pos < fileLimit maxBytes) (hbig : fileLimit maxBytes < f.pos + p.length) :
    f.Write disk maxBytes p
      = (⟨f.path, fileLimit maxBytes⟩,
          disk.set f.path (writeAt data f.pos (p.take (fileLimit maxBytes - f.pos))),
          some .fileTooLarge) := by
  have h1 : ¬ (p.length ≠ 0 ∧ 9223372036854775808 ≤ f.pos + p.length) := by omega
  have h2 : ¬ (p.length ≠ 0 ∧ fileLimit maxBytes ≤ f.pos) := by omega
  have h3 : p.length ≠ 0 ∧ fileLimit maxBytes < f.pos + p.length := ⟨by omega, hbig⟩
  simp only [OSFile.Write, hd, if_neg h1, if_neg h2, if_pos h3]

theorem Seek_Write_fits (file : OSFile) (disk : Disk) (maxBytes : Nat) (t : Int)
    (p data : List Byte) (hd : disk file.path = some data) (hpos : 0 ≤ t)
    (hfit : t.toNat + p.length ≤ fileLimit maxBytes) :
    (file.Seek disk maxBytes t 0).2 = .ok t ∧
    (file.Seek disk maxBytes t 0).1 = ⟨file.path, t.toNat⟩ ∧
    (⟨file.path, t.toNat⟩ : OSFile).Write disk maxBytes p
      = (⟨file.path, t.toNat + p.length⟩, disk.set file.path (writeAt data t.toNat p), none) := by
  have hseek : 0 ≤ t ∧ t ≤ (fileLimit maxBytes : Int) := ⟨hpos, by omega⟩
  refine ⟨?_, ?_, ?_⟩
  · simp only [OSFile.Seek, hd, if_true, Nat.cast_zero, zero_add, le_refl, true_and,
      Nat.zero_le, hseek, and_self]
  · simp only [OSFile.Seek, hd, if_true, Nat.cast_zero, zero_add, le_refl, true_and,
      Nat.zero_le, hseek, and_self]
  · exact OSFile_Write_fits ⟨file.path, t.toNat⟩ disk maxBytes p data hd hfit

/-- `FileManager.Write` on a file that exists, at a block whose wrapped byte offset is not
negative, when the write ends within the largest file size: the buffer is written at that
offset. -/
theorem FileManager_Write_existing (w : World) (blk : Block) (p data : List Byte) (hwf : w.WF)
    (hd : w.disk (Join w.fm.dbDir blk.FileName) = some data)
    (hpos : 0 ≤ toInt64 (blk.Number * BLOCK_SIZE))
    (hfit : (toInt64 (blk.Number * BLOCK_SIZE)).toNat + p.length ≤ w.maxBytes) :
    FileManager.Write w blk p = .ret
      (w.transferred blk.FileName (Join w.fm.dbDir blk.FileName)
        (writeAt data (toInt64 (blk.Number * BLOCK_SIZE)).toNat p)
        ((toInt64 (blk.Number * BLOCK_SIZE)).toNat + p.length), none) := by
  obtain ⟨pos0, hg⟩ := getOrOpen_existing w blk.FileName false data hwf hd
  unfold FileManager.Write
  rw [hg]
  have hd1 : (w.setHandle blk.FileName ⟨Join w.fm.dbDir blk.FileName, pos0⟩).disk
      (⟨Join w.fm.dbDir blk.FileName, pos0⟩ : OSFile).path = some data := hd
  obtain ⟨h1, h2, h3⟩ := Seek_Write_fits ⟨Join w.fm.dbDir blk.FileName, pos0⟩
    (w.setHandle blk.FileName ⟨Join w.fm.dbDir blk.FileName, pos0⟩).disk
    (w.setHandle blk.FileName ⟨Join w.fm.dbDir blk.FileName, pos0⟩).maxBytes
    (toInt64 (blk.Number * BLOCK_SIZE)) p data hd1 hpos
    (by rw [show (w.setHandle blk.FileName ⟨Join w.fm.dbDir blk.FileName, pos0⟩).maxBytes
          = w.maxBytes from rfl, fileLimit_eq w hwf.2]; exact hfit)
  simp only [Outcome.bind, h1, h2, h3]
  rw [setHandle_disk_setHandle]
  rfl

/-- `Page.Write` of an unlocked page on a file that exists. -/
theorem Page_Write_existing (w : World) (P : Page) (blk : Block) (data : List Byte)
    (hmu : P.mu = RWMutex.free) (hwf : w.WF)
    (hd : w.disk (Join w.fm.dbDir blk.FileName) = some data)
    (hpos : 0 ≤ toInt64 (blk.Number * BLOCK_SIZE))
    (hfit : (toInt64 (blk.Number * BLOCK_SIZE)).toNat + P.contents.length ≤ w.maxBytes) :
    P.Write w blk = .ret
      (w.transferred blk.FileName (Join w.fm.dbDir blk.FileName)
        (writeAt data (toInt64 (blk.Number * BLOCK_SIZE)).toNat P.contents)
        ((toInt64 (blk.Number * BLOCK_SIZE)).toNat + P.contents.length), P, none) := by
  unfold Page.Write
  rw [FileManager_Write_existing w blk P.contents data hwf hd hpos hfit]
  cases P with
  | mk mu contents =>
    simp only at hmu
    subst hmu
    rfl

/-- Witness for C3: a page of ones is written to block 1 of an empty file `test.dat` and read
back into a new page. -/
theorem Page_Write_Read_roundtrip_witness :
    ∃ w1 w2, (⟨RWMutex.free, List.replicate 4096 1⟩ : Page).Write
        (World.withFile "db" "test.dat" []) (NewBlock "test.dat" 1)
        = .ret (w1, ⟨RWMutex.free, List.replicate 4096 1⟩, none) ∧
      NewPage.Read w1 (NewBlock "test.dat" 1)
        = .ret (w2, ⟨RWMutex.free, List.replicate 4096 1⟩, none) := by
  have h := Page_Write_existing (World.withFile "db" "test.dat" [])
    ⟨RWMutex.free, List.replicate 4096 1⟩ (NewBlock "test.dat" 1) [] rfl
    (World.withFile_WF "db" "test.dat" [] (by decide)) (World.withFile_disk "db" "test.dat" [])
    (by decide) (by rw [List.length_replicate]; decide)
  obtain ⟨w2, h2⟩ := Page_Write_Read_roundtrip (World.withFile "db" "test.dat" []) _
    ⟨RWMutex.free, List.replicate 4096 1⟩ ⟨RWMutex.free, List.replicate 4096 1⟩ NewPage
    "test.dat" 1 (List.length_replicate _ _) rfl (List.length_replicate _ _) h
  exact ⟨_, w2, h, h2⟩

theorem toInt64_of_range (x : Int) (h0 : 0 ≤ x) (h1 : x < 9223372036854775808) :
    toInt64 x = x := by
  unfold toInt64
  omega

theorem transferred_disk (w : World) (name path : String) (data : List Byte) (pos : Nat) :
    (w.transferred name path data pos).disk path = some data := by
  simp [World.transferred, World.setHandle, Disk.set]

/-! ## Writing beyond the end of a file -/

/-- `FileManager.Write` on a file that exists, at the block that starts at the largest file
size, with a buffer that is not empty: `EFBIG`, and the file is as it was. -/
theorem FileManager_Write_too_large (w : World) (blk : Block) (p data : List Byte) (hwf : w.WF)
    (hd : w.disk (Join w.fm.dbDir blk.FileName) = some data)
    (hpos : 0 ≤ toInt64 (blk.Number * BLOCK_SIZE))
    (hfull : (toInt64 (blk.Number * BLOCK_SIZE)).toNat = w.maxBytes) (hp : p.length ≠ 0)
    (hsmall : (toInt64 (blk.Number * BLOCK_SIZE)).toNat + p.length < 9223372036854775808) :
    FileManager.Write w blk p = .ret
      (w.setHandle blk.FileName
        ⟨Join w.fm.dbDir blk.FileName, (toInt64 (blk.Number * BLOCK_SIZE)).toNat⟩,
        some .fileTooLarge) := by
  obtain ⟨pos0, hg⟩ := getOrOpen_existing w blk.FileName false data hwf hd
  unfold FileManager.Write
  rw [hg]
  have hd1 : (w.setHandle blk.FileName ⟨Join w.fm.dbDir blk.FileName, pos0⟩).disk
      (Join w.fm.dbDir blk.FileName) = some data := hd
  have hmb : (w.setHandle blk.FileName ⟨Join w.fm.dbDir blk.FileName, pos0⟩).maxBytes
      = w.maxBytes := rfl
  have hlim := fileLimit_eq w hwf.2
  have hs : 0 ≤ toInt64 (blk.Number * BLOCK_SIZE) ∧
      toInt64 (blk.Number * BLOCK_SIZE) ≤ (fileLimit w.maxBytes : Int) := ⟨hpos, by omega⟩
  have hwr := OSFile_Write_full
    ⟨Join w.fm.dbDir blk.FileName, (toInt64 (blk.Number * BLOCK_SIZE)).toNat⟩
    (w.setHandle blk.FileName ⟨Join w.fm.dbDir blk.FileName, pos0⟩).disk w.maxBytes p data
    hd1 hp hsmall (by rw [hlim]; exact le_of_eq hfull.symm)
  simp only [Outcome.bind, OSFile.Seek, hd1, hmb, if_true, Nat.cast_zero,
    zero_add, le_refl, true_and, Nat.zero_le, hs, and_self, hwr]
  exact congrArg (fun x => Outcome.ret (x, some IOError.fileTooLarge))
    (setHandle_setHandle w _ _ _)

/-- C10, as amended: for every file that exists, with bytes `data`, every block number `n ≥ 0`
whose byte offset `n * BLOCK_SIZE` is not below the file length, and every buffer `p` of at
least one byte such that `n * BLOCK_SIZE + len(p)` is within the largest file size of the file
system: `FileManager.Write` returns no error, the file then has length
`n * BLOCK_SIZE + len(p)`, its bytes from `n * BLOCK_SIZE` on are `p`, every byte of the gap
between the old end and `n * BLOCK_SIZE` is zero, and the old bytes are unchanged. -/
theorem FileManager_Write_beyond_end (w : World) (f : String) (n : Int) (data p : List Byte)
    (hwf : w.WF) (hd : w.disk (Join w.fm.dbDir f) = some data) (hn : 0 ≤ n)
    (hfit : n * BLOCK_SIZE + p.length ≤ w.maxBytes) (hgap : (data.length : Int) ≤ n * BLOCK_SIZE)
    (hp : 1 ≤ p.length) :
    ∃ w1 d1, FileManager.Write w (NewBlock f n) p = .ret (w1, none) ∧
      w1.disk (Join w.fm.dbDir f) = some d1 ∧
      (d1.length : Int) = n * BLOCK_SIZE + p.length ∧
      d1.drop (n * BLOCK_SIZE).toNat = p ∧
      (∀ i : Nat, data.length ≤ i → (i : Int) < n * BLOCK_SIZE → d1[i]? = some 0) ∧
      d1.take data.length = data := by
  have hnb : 0 ≤ n * BLOCK_SIZE := by simp only [BLOCK_SIZE]; omega
  have hmax := hwf.2.1
  have hbound : n * (BLOCK_SIZE : Int) < 9223372036854775808 := by omega
  have hto : toInt64 ((NewBlock f n).Number * BLOCK_SIZE) = n * BLOCK_SIZE :=
    toInt64_of_range _ hnb hbound
  have hw := FileManager_Write_existing w (NewBlock f n) p data hwf hd (by rw [hto]; exact hnb)
    (by rw [hto]; omega)
  rw [hto] at hw
  have hp0 : p.length ≠ 0 := by omega
  have hle : data.length ≤ (n * BLOCK_SIZE).toNat := by omega
  refine ⟨_, _, hw, transferred_disk _ _ _ _ _, ?_, ?_, ?_, ?_⟩
  · rw [writeAt_length _ _ _ hp0]
    omega
  · rw [writeAt_beyond _ _ _ hp0 hle, List.drop_append_eq_append_drop]
    have hl : (data ++ List.replicate ((n * BLOCK_SIZE).toNat - data.length) (0 : Byte)).length
        = (n * BLOCK_SIZE).toNat := by
      simp only [List.length_append, List.length_replicate]
      omega
    rw [hl, Nat.sub_self, List.drop_zero, List.drop_eq_nil_of_le (by omega), List.nil_append]
  · intro i hi1 hi2
    rw [writeAt_beyond _ _ _ hp0 hle, List.append_assoc, List.getElem?_append_right hi1,
      List.getElem?_append_left (by simp only [List.length_replicate]; omega)]
    simp only [List.getElem?_replicate]
    rw [if_pos (by omega)]
  · rw [writeAt_beyond _ _ _ hp0 hle, List.append_assoc, List.take_left']
    rfl

/-- Witness for C10, as amended: two bytes written at block 1 of a three-byte file. -/
theorem FileManager_Write_beyond_end_witness :
    ∃ w1 d1, FileManager.Write (World.withFile "db" "f" [1, 2, 3]) (NewBlock "f" 1) [8, 9]
        = .ret (w1, none) ∧
      w1.disk (Join (World.withFile "db" "f" [1, 2, 3]).fm.dbDir "f") = some d1 ∧
      (d1.length : Int) = 1 * BLOCK_SIZE + ([8, 9] : List Byte).length ∧
      d1.drop ((1 : Int) * BLOCK_SIZE).toNat = [8, 9] ∧
      (∀ i : Nat, ([1, 2, 3] : List Byte).length ≤ i → (i : Int) < 1 * BLOCK_SIZE →
        d1[i]? = some 0) ∧
      d1.take ([1, 2, 3] : List Byte).length = [1, 2, 3] :=
  FileManager_Write_beyond_end (World.withFile "db" "f" [1, 2, 3]) "f" 1 [1, 2, 3] [8, 9]
    (World.withFile_WF "db" "f" [1, 2, 3] (by decide)) (World.withFile_disk "db" "f" [1, 2, 3])
    (by decide) (by decide) (by decide) (by decide)

/-- C10 fails as stated in three places.  An empty buffer written at block 1 of an empty
file returns no error and leaves the file empty: its length is not `1 * BLOCK_SIZE + 0`.  One
byte written at block `2^52` of an empty file lands at offset 0, because `2^52 * BLOCK_SIZE`
wraps to 0 in 64-bit arithmetic: the file is that one byte, its length is not
`2^52 * BLOCK_SIZE + 1`.  One byte written at block `2^32 - 1` of an empty file on ext4 would
lie beyond the largest file size `2^44 - 4096`: `Write` returns `EFBIG` and the file stays
empty. -/
theorem FileManager_Write_beyond_end_counterexample :
    (∃ w1 d1, FileManager.Write (World.withFile "db" "f" []) (NewBlock "f" 1) []
        = .ret (w1, none) ∧
      w1.disk (Join (World.withFile "db" "f" []).fm.dbDir "f") = some d1 ∧
      (d1.length : Int) ≠ 1 * BLOCK_SIZE + ([] : List Byte).length) ∧
    (∃ w1 d1, FileManager.Write (World.withFile "db" "f" []) (NewBlock "f" 4503599627370496) [7]
        = .ret (w1, none) ∧
      w1.disk (Join (World.withFile "db" "f" []).fm.dbDir "f") = some d1 ∧
      (d1.length : Int) ≠ 4503599627370496 * BLOCK_SIZE + ([7] : List Byte).length) ∧
    (∃ w1, FileManager.Write (World.withFile "db" "f" []) (NewBlock "f" 4294967295) [7]
        = .ret (w1, some .fileTooLarge) ∧
      w1.disk (Join (World.withFile "db" "f" []).fm.dbDir "f") = some []) := by
  have hwf := World.withFile_WF "db" "f" [] (by decide)
  refine ⟨?_, ?_, ?_⟩
  · refine ⟨_, _, FileManager_Write_existing (World.withFile "db" "f" []) (NewBlock "f" 1) [] []
      hwf (World.withFile_disk "db" "f" []) (by decide) (by decide),
      transferred_disk _ _ _ _ _, ?_⟩
    decide
  · refine ⟨_, _, FileManager_Write_existing (World.withFile "db" "f" [])
      (NewBlock "f" 4503599627370496) [7] []
      hwf (World.withFile_disk "db" "f" []) (by decide) (by decide),
      transferred_disk _ _ _ _ _, ?_⟩
    decide
  · exact ⟨_, FileManager_Write_too_large (World.withFile "db" "f" [])
      (NewBlock "f" 4294967295) [7] [] hwf (World.withFile_disk "db" "f" []) (by decide)
      (by rw [World.withFile_maxBytes]; decide) (by decide) (by decide),
      World.withFile_disk "db" "f" []⟩

/-! ## Lemmas: appending -/

theorem writeAt_end (data p : List Byte) : writeAt data data.length p = data ++ p := by
  unfold writeAt
  split
  · rename_i h
    rw [List.length_eq_zero.mp h, List.append_nil]
  · rw [List.take_length, Nat.sub_self, List.drop_eq_nil_of_le (by omega)]
    simp

theorem Disk.set_set (d : Disk) (path : String) (x y : List Byte) :
    (d.set path x).set path y = d.set path y := by
  funext q
  simp only [Disk.set]
  split <;> rfl

/-- A seek to the end of a file and a write there that ends within the largest file size. -/
theorem SeekEnd_Write_fits (file : OSFile) (disk : Disk) (maxBytes : Nat)
    (p data : List Byte) (hd : disk file.path = some data)
    (hfit : data.length + p.length ≤ fileLimit maxBytes) :
    (file.Seek disk maxBytes 0 2).2 = .ok (data.length : Int) ∧
    (file.Seek disk maxBytes 0 2).1 = ⟨file.path, data.length⟩ ∧
    (⟨file.path, data.length⟩ : OSFile).Write disk maxBytes p
      = (⟨file.path, data.length + p.length⟩, disk.set file.path (data ++ p), none) := by
  have hseek : (data.length : Int) ≤ (fileLimit maxBytes : Int) := by omega
  refine ⟨?_, ?_, ?_⟩
  · simp only [OSFile.Seek, hd, show ¬ (2 = 0) by decide, show ¬ (2 = 1) by decide, if_false,
      le_refl, add_zero, Nat.cast_nonneg, hseek, and_self, if_true]
  · simp only [OSFile.Seek, hd, show ¬ (2 = 0) by decide, show ¬ (2 = 1) by decide, if_false,
      le_refl, add_zero, Nat.cast_nonneg, hseek, and_self, if_true, Int.toNat_ofNat]
  · rw [OSFile_Write_fits ⟨file.path, data.length⟩ disk maxBytes p data hd hfit, writeAt_end]

/-- A seek to the end of a file that has the largest file size and a write there: the seek
succeeds, the write fails and writes nothing. -/
theorem SeekEnd_Write_too_large (file : OSFile) (disk : Disk) (maxBytes : Nat)
    (p data : List Byte) (hd : disk file.path = some data)
    (hfull : data.length = fileLimit maxBytes) (hp : p.length ≠ 0)
    (hsmall : data.length + p.length < 9223372036854775808) :
    (file.Seek disk maxBytes 0 2).2 = .ok (data.length : Int) ∧
    (file.Seek disk maxBytes 0 2).1 = ⟨file.path, data.length⟩ ∧
    (⟨file.path, data.length⟩ : OSFile).Write disk maxBytes p
      = (⟨file.path, data.length⟩, disk, some .fileTooLarge) := by
  have hseek : (data.length : Int) ≤ (fileLimit maxBytes : Int) := by omega
  refine ⟨?_, ?_, ?_⟩
  · simp only [OSFile.Seek, hd, show ¬ (2 = 0) by decide, show ¬ (2 = 1) by decide, if_false,
      le_refl, add_zero, Nat.cast_nonneg, hseek, and_self, if_true]
  · simp only [OSFile.Seek, hd, show ¬ (2 = 0) by decide, show ¬ (2 = 1) by decide, if_false,
      le_refl, add_zero, Nat.cast_nonneg, hseek, and_self, if_true, Int.toNat_ofNat]
  · exact OSFile_Write_full ⟨file.path, data.length⟩ disk maxBytes p data hd hp hsmall
      (le_of_eq hfull.symm)

/-- `FileManager.Append` on a file that exists, when the new end is within the largest file
size: the buffer goes to the end of the file and the block number is the old length divided
by `BLOCK_SIZE`. -/
theorem FileManager_Append_existing (w : World) (name : String) (p data : List Byte)
    (hwf : w.WF) (hd : w.disk (Join w.fm.dbDir name) = some data)
    (hfit : data.length + p.length ≤ w.maxBytes) :
    FileManager.Append w name p = .ret
      (w.transferred name (Join w.fm.dbDir name) (data ++ p) (data.length + p.length),
        .ok (NewBlock name (((data.length / BLOCK_SIZE : Nat) : Nat) : Int))) := by
  obtain ⟨pos0, hg⟩ := getOrOpen_existing w name true data hwf hd
  have hd1 : (w.setHandle name ⟨Join w.fm.dbDir name, pos0⟩).disk (Join w.fm.dbDir name)
      = some data := hd
  obtain ⟨h1, h2, h3⟩ := SeekEnd_Write_fits ⟨Join w.fm.dbDir name, pos0⟩
    (w.setHandle name ⟨Join w.fm.dbDir name, pos0⟩).disk
    (w.setHandle name ⟨Join w.fm.dbDir name, pos0⟩).maxBytes p data hd1
    (by rw [show (w.setHandle name ⟨Join w.fm.dbDir name, pos0⟩).maxBytes
          = w.maxBytes from rfl, fileLimit_eq w hwf.2]; exact hfit)
  unfold FileManager.Append
  rw [hg]
  simp only [Outcome.bind, OSFile.Stat, hd1, h1, h2, h3]
  rw [setHandle_disk_setHandle]
  rfl

/-- `FileManager.Append` on a file that has the largest file size: the write error is
returned, nothing is written, and the handle stays at the end of the file. -/
theorem FileManager_Append_too_large (w : World) (name : String) (p data : List Byte)
    (hwf : w.WF) (hd : w.disk (Join w.fm.dbDir name) = some data) (hp : p.length ≠ 0)
    (hfull : data.length = w.maxBytes)
    (hsmall : data.length + p.length < 9223372036854775808) :
    FileManager.Append w name p = .ret
      (w.setHandle name ⟨Join w.fm.dbDir name, data.length⟩, .error .fileTooLarge) := by
  obtain ⟨pos0, hg⟩ := getOrOpen_existing w name true data hwf hd
  have hd1 : (w.setHandle name ⟨Join w.fm.dbDir name, pos0⟩).disk (Join w.fm.dbDir name)
      = some data := hd
  have hlim := fileLimit_eq w hwf.2
  obtain ⟨h1, h2, h3⟩ := SeekEnd_Write_too_large ⟨Join w.fm.dbDir name, pos0⟩
    (w.setHandle name ⟨Join w.fm.dbDir name, pos0⟩).disk
    (w.setHandle name ⟨Join w.fm.dbDir name, pos0⟩).maxBytes p data hd1
    (by rw [show (w.setHandle name ⟨Join w.fm.dbDir name, pos0⟩).maxBytes
          = w.maxBytes from rfl, hlim]; exact hfull) hp hsmall
  unfold FileManager.Append
  rw [hg]
  simp only [Outcome.bind, OSFile.Stat, hd1, h1, h2, h3]
  exact congrArg (fun x => Outcome.ret (x, Except.error IOError.fileTooLarge))
    (setHandle_setHandle w _ _ _)

/-- `FileManager.Append` on a path with no file, where the system takes the making of one and
the buffer is within the largest file size: the file is made and holds the buffer. -/
theorem FileManager_Append_create (w : World) (name : String) (p : List Byte) (hwf : w.WF)
    (hcr : w.CanCreate (Join w.fm.dbDir name)) (hfit : p.length ≤ w.maxBytes) :
    FileManager.Append w name p = .ret
      (w.transferred name (Join w.fm.dbDir name) p p.length, .ok (NewBlock name 0)) := by
  have hg := getOrOpen_create w name hwf hcr
  have hd1 : (World.setHandle { w with disk := w.disk.set (Join w.fm.dbDir name) [] } name
      ⟨Join w.fm.dbDir name, 0⟩).disk (Join w.fm.dbDir name) = some [] := by
    simp [World.setHandle, Disk.set]
  obtain ⟨h1, h2, h3⟩ := SeekEnd_Write_fits ⟨Join w.fm.dbDir name, 0⟩
    (World.setHandle { w with disk := w.disk.set (Join w.fm.dbDir name) [] } name
      ⟨Join w.fm.dbDir name, 0⟩).disk
    (World.setHandle { w with disk := w.disk.set (Join w.fm.dbDir name) [] } name
      ⟨Join w.fm.dbDir name, 0⟩).maxBytes p [] hd1
    (by rw [show (World.setHandle { w with disk := w.disk.set (Join w.fm.dbDir name) [] } name
          ⟨Join w.fm.dbDir name, 0⟩).maxBytes = w.maxBytes from rfl, fileLimit_eq w hwf.2]
        simpa using hfit)
  simp only [List.length_nil, Nat.cast_zero, zero_add, List.nil_append] at h1 h2 h3
  unfold FileManager.Append
  rw [hg]
  simp only [Outcome.bind, OSFile.Stat, hd1, h1, h2, h3]
  rw [setHandle_disk_setHandle]
  simp only [World.setHandle, Disk.set_set, World.transferred, List.length_nil,
    Nat.zero_div, Nat.cast_zero]

/-- `FileManager.Append` with an open error (the path names a directory, lies under no
directory, or is no valid name): the error is returned and nothing changes. -/
theorem FileManager_Append_open_error (w : World) (name : String) (p : List Byte) (e : IOError)
    (hwf : w.WF) (hd : w.disk (Join w.fm.dbDir name) = none)
    (he : openError w.disk w.dirs (Join w.fm.dbDir name) = some e) :
    FileManager.Append w name p = .ret (w, .error e) := by
  unfold FileManager.Append
  rw [getOrOpen_error w name true e hwf hd he]
  rfl

/-- `FileManager.Append` between calls, on a file that exists or that the system lets be
made, when the new end is within the largest file size: the buffer goes to the end of the
file, and the block number is the old length divided by `BLOCK_SIZE`. -/
theorem FileManager_Append_WF (w : World) (name : String) (p : List Byte) (hwf : w.WF)
    (hopen : (∃ data, w.disk (Join w.fm.dbDir name) = some data) ∨
      w.CanCreate (Join w.fm.dbDir name))
    (hfit : (w.disk.bytes (Join w.fm.dbDir name)).length + p.length ≤ w.maxBytes) :
    FileManager.Append w name p = .ret
      (w.transferred name (Join w.fm.dbDir name) (w.disk.bytes (Join w.fm.dbDir name) ++ p)
        ((w.disk.bytes (Join w.fm.dbDir name)).length + p.length),
        .ok (NewBlock name
          (((w.disk.bytes (Join w.fm.dbDir name)).length / BLOCK_SIZE : Nat) : Int))) := by
  cases hd : w.disk (Join w.fm.dbDir name) with
  | some data =>
    have hb : w.disk.bytes (Join w.fm.dbDir name) = data := by simp [Disk.bytes, hd]
    rw [hb] at hfit ⊢
    exact FileManager_Append_existing w name p data hwf hd hfit
  | none =>
    have hb : w.disk.bytes (Join w.fm.dbDir name) = [] := by simp [Disk.bytes, hd]
    have hcr : w.CanCreate (Join w.fm.dbDir name) := by
      rcases hopen with ⟨data, hdata⟩ | hcr
      · rw [hd] at hdata
        cases hdata
      · exact hcr
    rw [hb] at hfit ⊢
    rw [FileManager_Append_create w name p hwf hcr (by simpa using hfit)]
    simp only [List.nil_append, List.length_nil, zero_add, Nat.zero_div, Nat.cast_zero]

/-- `Page.Append` of an unlocked page between calls. -/
theorem Page_Append_WF (w : World) (P : Page) (name : String) (hmu : P.mu = RWMutex.free)
    (hwf : w.WF)
    (hopen : (∃ data, w.disk (Join w.fm.dbDir name) = some data) ∨
      w.CanCreate (Join w.fm.dbDir name))
    (hfit : (w.disk.bytes (Join w.fm.dbDir name)).length + P.contents.length ≤ w.maxBytes) :
    P.Append w name = .ret
      (w.transferred name (Join w.fm.dbDir name)
        (w.disk.bytes (Join w.fm.dbDir name) ++ P.contents)
        ((w.disk.bytes (Join w.fm.dbDir name)).length + P.contents.length), P,
        .ok (NewBlock name
          (((w.disk.bytes (Join w.fm.dbDir name)).length / BLOCK_SIZE : Nat) : Int))) := by
  unfold Page.Append
  rw [FileManager_Append_WF w name P.contents hwf hopen hfit]
  cases P with
  | mk mu contents =>
    simp only at hmu
    subst hmu
    rfl

theorem transferred_WF (w : World) (name : String) (data : List Byte) (pos : Nat)
    (hwf : w.WF) (hsize : data.length ≤ w.maxBytes) :
    (w.transferred name (Join w.fm.dbDir name) data pos).WF := by
  obtain ⟨⟨hmu, hh⟩, hsz⟩ := hwf
  refine ⟨⟨hmu, ?_⟩, hsz.1, ?_, hsz.2.2⟩
  · intro q file hq
    simp only [World.transferred, World.setHandle] at hq ⊢
    split at hq
    · rename_i hqn
      cases hq
      subst hqn
      exact ⟨rfl, data, by simp [Disk.set]⟩
    · obtain ⟨hpath, d, hd⟩ := hh q file hq
      refine ⟨hpath, ?_⟩
      simp only [Disk.set]
      split
      · exact ⟨data, rfl⟩
      · exact ⟨d, hd⟩
  · intro path d hd
    simp only [World.transferred, World.setHandle, Disk.set] at hd
    split at hd
    · cases hd
      exact hsize
    · exact hsz.2.1 path d hd

theorem transferred_bytes (w : World) (name path : String) (data : List Byte) (pos : Nat) :
    (w.transferred name path data pos).disk.bytes path = data := by
  simp [Disk.bytes, transferred_disk]

theorem transferred_handle (w : World) (name path : String) (data : List Byte) (pos : Nat) :
    (w.transferred name path data pos).fm.openFiles name = some ⟨path, pos⟩ := by
  simp [World.transferred, World.setHandle]

theorem transferred_mu (w : World) (name path : String) (data : List Byte) (pos : Nat) :
    (w.transferred name path data pos).fm.mu = w.fm.mu := rfl

theorem transferred_dbDir (w : World) (name path : String) (data : List Byte) (pos : Nat) :
    (w.transferred name path data pos).fm.dbDir = w.fm.dbDir := rfl

/-! ## Append -/

/-- C5, as amended: for every file that exists with a length that is a multiple of
`BLOCK_SIZE` and so far below the largest file size of the file system that one more block
fits, and every buffer of `BLOCK_SIZE` bytes: `FileManager.Append` returns a block of that file
whose number times `BLOCK_SIZE` is the old length, the buffer is written exactly there (the old
bytes stay, the buffer follows them), and `FileManager.Read` of the returned block into any
`BLOCK_SIZE`-byte buffer returns no error and yields the appended buffer. -/
theorem FileManager_Append_Read (w : World) (name : String) (data buf p2 : List Byte)
    (hwf : w.WF) (hd : w.disk (Join w.fm.dbDir name) = some data)
    (hal : data.length % BLOCK_SIZE = 0) (hfit : data.length + BLOCK_SIZE ≤ w.maxBytes)
    (hbuf : buf.length = BLOCK_SIZE) (hp2 : p2.length = BLOCK_SIZE) :
    ∃ w1 blk d1, FileManager.Append w name buf = .ret (w1, .ok blk) ∧
      blk.FileName = name ∧ blk.Number * BLOCK_SIZE = data.length ∧
      w1.disk (Join w.fm.dbDir name) = some d1 ∧
      d1.take data.length = data ∧ d1.drop data.length = buf ∧
      ∃ w2, FileManager.Read w1 blk p2 = .ret (w2, buf, none) := by
  have ha := FileManager_Append_existing w name buf data hwf hd (by rw [hbuf]; exact hfit)
  have hmax := hwf.2.1
  have hnum : (((data.length / BLOCK_SIZE : Nat) : Int)) * BLOCK_SIZE = data.length := by
    simp only [BLOCK_SIZE] at hal ⊢
    omega
  have hto : toInt64
      ((NewBlock name ((data.length / BLOCK_SIZE : Nat) : Int)).Number * BLOCK_SIZE)
      = data.length := by
    show toInt64 ((((data.length / BLOCK_SIZE : Nat) : Int)) * BLOCK_SIZE) = data.length
    rw [hnum]
    exact toInt64_of_range _ (by omega) (by omega)
  have hp20 : p2.length ≠ 0 := by rw [hp2]; decide
  have hlim : fileLimit
      (w.transferred name (Join w.fm.dbDir name) (data ++ buf) (data.length + buf.length)).maxBytes
      = w.maxBytes := fileLimit_eq w hwf.2
  have hr := FileManager_Read_cached
    (w.transferred name (Join w.fm.dbDir name) (data ++ buf) (data.length + buf.length))
    (NewBlock name ((data.length / BLOCK_SIZE : Nat) : Int)) p2
    ⟨Join w.fm.dbDir name, data.length + buf.length⟩ (data ++ buf)
    (by rw [transferred_mu, hwf.1.1]; rfl) (transferred_handle _ _ _ _ _)
    (transferred_disk _ _ _ _ _) (by rw [hto]; omega) (by rw [hto, hlim]; omega)
    (by rw [hto, Int.toNat_ofNat, hp2]; omega) hp20
    (by rw [hto, List.length_append, hp2, hbuf]; simp)
  have htake : List.take p2.length (List.drop data.length (data ++ buf)) = buf := by
    rw [List.drop_left, hp2, ← hbuf, List.take_length]
  rw [hto, Int.toNat_ofNat, htake] at hr
  refine ⟨_, _, data ++ buf, ha, ?_, ?_, ?_, ?_, ?_, ?_⟩
  · rfl
  · exact hnum
  · exact transferred_disk _ _ _ _ _
  · exact List.take_left _ _
  · exact List.drop_left _ _
  · exact ⟨_, hr⟩

/-- Witness for C5: a block of ones appended to a file holding one block of zeros. -/
theorem FileManager_Append_Read_witness :
    ∃ w1 blk d1, FileManager.Append (World.withFile "db" "test.dat" (List.replicate 4096 0))
        "test.dat" (List.replicate 4096 1) = .ret (w1, .ok blk) ∧
      blk.FileName = "test.dat" ∧
      blk.Number * BLOCK_SIZE = (List.replicate 4096 (0 : Byte)).length ∧
      w1.disk (Join (World.withFile "db" "test.dat" (List.replicate 4096 0)).fm.dbDir "test.dat")
        = some d1 ∧
      d1.take (List.replicate 4096 (0 : Byte)).length = List.replicate 4096 0 ∧
      d1.drop (List.replicate 4096 (0 : Byte)).length = List.replicate 4096 1 ∧
      ∃ w2, FileManager.Read w1 blk (List.replicate 4096 5)
        = .ret (w2, List.replicate 4096 1, none) :=
  FileManager_Append_Read (World.withFile "db" "test.dat" (List.replicate 4096 0)) "test.dat"
    (List.replicate 4096 0) (List.replicate 4096 1) (List.replicate 4096 5)
    (World.withFile_WF _ _ _ (by rw [List.length_replicate]; decide))
    (World.withFile_disk _ _ _)
    (by rw [List.length_replicate]; decide)
    (by rw [List.length_replicate, World.withFile_maxBytes]; decide)
    (List.length_replicate _ _) (List.length_replicate _ _)

/-- Counterexample to C5 as stated: on ext4 a file that has the largest file size,
`2^44 - 4096` bytes, has a length that is a multiple of `BLOCK_SIZE`, and `FileManager.Append`
of a buffer of `BLOCK_SIZE` bytes returns the error `EFBIG` of the write, no block, and leaves
the file as it was. -/
theorem FileManager_Append_Read_counterexample :
    (World.withFile "db" "f" (List.replicate 17592186040320 0)).WF ∧
    (World.withFile "db" "f" (List.replicate 17592186040320 0)).disk (Join "db" "f")
      = some (List.replicate 17592186040320 0) ∧
    (List.replicate 17592186040320 (0 : Byte)).length % BLOCK_SIZE = 0 ∧
    (List.replicate 4096 (1 : Byte)).length = BLOCK_SIZE ∧
    ∃ w1, FileManager.Append (World.withFile "db" "f" (List.replicate 17592186040320 0)) "f"
        (List.replicate 4096 1) = .ret (w1, .error .fileTooLarge) ∧
      w1.disk = (World.withFile "db" "f" (List.replicate 17592186040320 0)).disk := by
  have hwf := World.withFile_WF "db" "f" (List.replicate 17592186040320 0)
    (by rw [List.length_replicate]; decide)
  refine ⟨hwf, World.withFile_disk _ _ _, by rw [List.length_replicate]; decide,
    List.length_replicate _ _, _, FileManager_Append_too_large _ "f" (List.replicate 4096 1)
      (List.replicate 17592186040320 0) hwf (World.withFile_disk _ _ _)
      (by rw [List.length_replicate]; decide)
      (by rw [List.length_replicate, World.withFile_maxBytes]; decide)
      (by rw [List.length_replicate, List.length_replicate]; decide), rfl⟩

theorem concatContents_length (pages : List Page)
    (h : ∀ P ∈ pages, P.mu = RWMutex.free ∧ P.contents.length = BLOCK_SIZE) :
    (concatContents pages).length = pages.length * BLOCK_SIZE := by
  induction pages with
  | nil => simp [concatContents]
  | cons P ps ih =>
    have hP := (h P (List.mem_cons_self _ _)).2
    have hps := ih (fun Q hQ => h Q (List.mem_cons_of_mem _ hQ))
    simp only [concatContents, List.length_append, List.length_cons, hP, hps]
    ring

/-- `Page.Append` of an unlocked page returns what `FileManager.Append` returns. -/
theorem Page_Append_of (w : World) (P : Page) (name : String)
    (res : World × Except IOError Block) (hmu : P.mu = RWMutex.free)
    (h : FileManager.Append w name P.contents = .ret res) :
    P.Append w name = .ret (res.1, P, res.2) := by
  unfold Page.Append
  rw [h]
  cases P with
  | mk mu contents =>
    simp only at hmu
    subst hmu
    rfl

/-- Successive appends to a file that holds `k` whole blocks, which exists or which the system
lets be made, return the block numbers `k, k+1, ...` and put the buffers after the old bytes,
as long as the file stays within the largest file size. -/
theorem appendEach_spec (name : String) (pages : List Page) :
    ∀ (w : World) (k : Nat), w.WF →
      (w.disk.bytes (Join w.fm.dbDir name)).length = k * BLOCK_SIZE →
      ((∃ data, w.disk (Join w.fm.dbDir name) = some data) ∨
        w.CanCreate (Join w.fm.dbDir name)) →
      (k + pages.length) * BLOCK_SIZE ≤ w.maxBytes →
      (∀ P ∈ pages, P.mu = RWMutex.free ∧ P.contents.length = BLOCK_SIZE) →
      ∃ w1, appendEach w name pages = .ret (w1,
          (List.range pages.length).map
            fun (i : Nat) => Except.ok (NewBlock name ((k + i : Nat) : Int))) ∧
        w1.disk.bytes (Join w.fm.dbDir name)
          = w.disk.bytes (Join w.fm.dbDir name) ++ concatContents pages ∧
        (pages ≠ [] → ∃ d, w1.disk (Join w.fm.dbDir name) = some d) ∧
        w1.WF ∧ w1.fm.dbDir = w.fm.dbDir ∧ w1.maxBytes = w.maxBytes := by
  induction pages with
  | nil =>
    intro w k hwf _ _ _ _
    exact ⟨w, rfl, by simp [concatContents], fun h => absurd rfl h, hwf, rfl, rfl⟩
  | cons P ps ih =>
    intro w k hwf hk hopen hfit hpages
    obtain ⟨hPmu, hPlen⟩ := hpages P (List.mem_cons_self _ _)
    have hfit1 : (w.disk.bytes (Join w.fm.dbDir name)).length + P.contents.length
        ≤ w.maxBytes := by
      rw [hk, hPlen]
      simp only [List.length_cons, BLOCK_SIZE] at hfit ⊢
      omega
    have ha := Page_Append_WF w P name hPmu hwf hopen hfit1
    have hdiv : (w.disk.bytes (Join w.fm.dbDir name)).length / BLOCK_SIZE = k := by
      rw [hk]
      exact Nat.mul_div_cancel k (by decide)
    rw [hdiv] at ha
    have hwf1 := transferred_WF w name (w.disk.bytes (Join w.fm.dbDir name) ++ P.contents)
      ((w.disk.bytes (Join w.fm.dbDir name)).length + P.contents.length) hwf
      (by rw [List.length_append]; exact hfit1)
    have hk1 : ((w.transferred name (Join w.fm.dbDir name)
        (w.disk.bytes (Join w.fm.dbDir name) ++ P.contents)
        ((w.disk.bytes (Join w.fm.dbDir name)).length + P.contents.length)).disk.bytes
          (Join w.fm.dbDir name)).length = (k + 1) * BLOCK_SIZE := by
      rw [transferred_bytes, List.length_append, hk, hPlen]
      ring
    have hfit2 : (k + 1 + ps.length) * BLOCK_SIZE ≤ w.maxBytes := by
      simp only [List.length_cons, BLOCK_SIZE] at hfit ⊢
      omega
    obtain ⟨w1, h1, hb1, -, hwfe, hdbe, hmaxe⟩ := ih _ (k + 1) hwf1 hk1
      (Or.inl ⟨_, transferred_disk _ _ _ _ _⟩) hfit2
      (fun Q hQ => hpages Q (List.mem_cons_of_mem _ hQ))
    rw [transferred_dbDir] at hb1
    refine ⟨w1, ?_, ?_, ?_, hwfe, hdbe, hmaxe⟩
    · simp only [appendEach, ha, Outcome.bind, h1, List.length_cons, List.range_succ_eq_map,
        List.map_cons, List.map_map, Nat.add_zero]
      congr 3
      apply List.map_congr_left
      intro i _
      simp only [Function.comp, Nat.succ_eq_add_one]
      congr 3
      omega
    · rw [hb1, transferred_bytes, concatContents, List.append_assoc]
    · intro _
      cases hps : ps with
      | nil =>
        subst hps
        simp only [appendEach, Outcome.bind] at h1
        cases h1
        exact ⟨_, transferred_disk _ _ _ _ _⟩
      | cons Q qs =>
        have hne : w1.disk.bytes (Join w.fm.dbDir name) ≠ [] := by
          rw [hb1, transferred_bytes]
          intro hnil
          have := congrArg List.length hnil
          simp only [List.length_append, hPlen, List.length_nil, BLOCK_SIZE] at this
          omega
        cases hd : w1.disk (Join w.fm.dbDir name) with
        | some d => exact ⟨d, rfl⟩
        | none => simp [Disk.bytes, hd] at hne

/-- Appending the pages of two lists in a row: the appends of the second list start where
those of the first have left the world. -/
theorem appendEach_append (name : String) (ps qs : List Page) :
    ∀ w : World, appendEach w name (ps ++ qs)
      = (appendEach w name ps).bind fun r =>
          (appendEach r.1 name qs).bind fun t => .ret (t.1, r.2 ++ t.2) := by
  induction ps with
  | nil =>
    intro w
    simp only [List.nil_append, appendEach, Outcome.bind]
    cases appendEach w name qs <;> rfl
  | cons P ps ih =>
    intro w
    simp only [List.cons_append, appendEach]
    cases P.Append w name with
    | ret r =>
      simp only [Outcome.bind]
      rw [show appendEach r.1 name (ps.append qs) = _ from ih r.1]
      cases appendEach r.1 name ps with
      | ret t =>
        simp only [Outcome.bind]
        cases appendEach t.1 name qs <;> rfl
      | panic => rfl
      | blocked => rfl
    | panic => rfl
    | blocked => rfl

/-- C4, as amended: for every `N ≥ 0` and every file name with no file yet, on a path where
the system lets a file be made (the name is well-formed, it names no directory, and every
directory on the way exists), with `N * BLOCK_SIZE` within the largest file size of the file
system: `N` successive `Append` calls on that name, each from an unlocked page of `BLOCK_SIZE`
bytes, all return without error; the returned blocks carry that file name and the numbers
`0, 1, ..., N-1` in call order; the file then holds the `N` buffers one after the other,
`N * BLOCK_SIZE` bytes in all (for `N = 0` no call is made and there is still no file). -/
theorem Append_fresh_file_sequence (w : World) (name : String) (pages : List Page)
    (hwf : w.WF) (hfresh : w.CanCreate (Join w.fm.dbDir name))
    (hfit : pages.length * BLOCK_SIZE ≤ w.maxBytes)
    (hpages : ∀ P ∈ pages, P.mu = RWMutex.free ∧ P.contents.length = BLOCK_SIZE) :
    ∃ w1, appendEach w name pages = .ret (w1,
        (List.range pages.length).map fun (i : Nat) => Except.ok (NewBlock name (i : Int))) ∧
      w1.disk (Join w.fm.dbDir name)
        = (if pages = [] then none else some (concatContents pages)) ∧
      (concatContents pages).length = pages.length * BLOCK_SIZE := by
  have hb : w.disk.bytes (Join w.fm.dbDir name) = [] := by simp [Disk.bytes, hfresh.1]
  obtain ⟨w1, h1, hb1, hex, -⟩ := appendEach_spec name pages w 0 hwf (by rw [hb]; rfl)
    (Or.inr hfresh) (by rw [Nat.zero_add]; exact hfit) hpages
  simp only [Nat.zero_add] at h1
  refine ⟨w1, h1, ?_, concatContents_length pages hpages⟩
  by_cases hp : pages = []
  · subst hp
    simp only [appendEach] at h1
    cases h1
    simpa using hfresh.1
  · obtain ⟨d, hd⟩ := hex hp
    rw [if_neg hp, hd]
    have : w1.disk.bytes (Join w.fm.dbDir name) = d := by simp [Disk.bytes, hd]
    rw [← this, hb1, hb, List.nil_append]

theorem World.fresh_CanCreate_test : (World.fresh "db").CanCreate (Join "db" "test.dat") :=
  ⟨rfl, by decide⟩

/-- Witness for C4: three appends to `test.dat` in a directory with no file. -/
theorem Append_fresh_file_sequence_witness :
    ∃ w1, appendEach (World.fresh "db") "test.dat"
        [NewPage, ⟨RWMutex.free, List.replicate 4096 1⟩, NewPage] = .ret (w1,
        (List.range [NewPage, ⟨RWMutex.free, List.replicate 4096 1⟩, NewPage].length).map
          fun (i : Nat) => Except.ok (NewBlock "test.dat" (i : Int))) ∧
      w1.disk (Join (World.fresh "db").fm.dbDir "test.dat")
        = (if [NewPage, ⟨RWMutex.free, List.replicate 4096 1⟩, NewPage] = [] then none
            else some (concatContents [NewPage, ⟨RWMutex.free, List.replicate 4096 1⟩, NewPage])) ∧
      (concatContents [NewPage, ⟨RWMutex.free, List.replicate 4096 1⟩, NewPage]).length
        = [NewPage, ⟨RWMutex.free, List.replicate 4096 1⟩, NewPage].length * BLOCK_SIZE :=
  Append_fresh_file_sequence (World.fresh "db") "test.dat"
    [NewPage, ⟨RWMutex.free, List.replicate 4096 1⟩, NewPage] (World.fresh_WF "db")
    World.fresh_CanCreate_test
    (by rw [World.fresh_maxBytes]; decide)
    (by
      intro P hP
      simp only [List.mem_cons, List.mem_singleton, List.not_mem_nil, or_false] at hP
      rcases hP with h | h | h <;> subst h <;> exact ⟨rfl, List.length_replicate _ _⟩)

theorem replicate_NewPage_pages (n : Nat) :
    ∀ P ∈ List.replicate n NewPage, P.mu = RWMutex.free ∧ P.contents.length = BLOCK_SIZE := by
  intro P hP
  rw [List.eq_of_mem_replicate hP]
  exact ⟨rfl, List.length_replicate _ _⟩

/-- Counterexample to C4 as stated.  In a new directory `db` no file is named `sub/x.dat`, and
the one `Append` on that name returns the error of the open (there is no directory `db/sub`)
and makes no file.  No file is named `f` either, and of `2^32` appends on that name on ext4
the first `2^32 - 1` return the blocks `0, ..., 2^32 - 2` and the last one returns `EFBIG`: the
file has reached the largest file size. -/
theorem Append_fresh_file_sequence_counterexample :
    ((World.fresh "db").disk (Join "db" "sub/x.dat") = none ∧
      appendEach (World.fresh "db") "sub/x.dat" [NewPage]
        = .ret (World.fresh "db", [.error .notExist])) ∧
    ((World.fresh "db").disk (Join "db" "f") = none ∧
      ∃ w1, appendEach (World.fresh "db") "f" (List.replicate 4294967296 NewPage)
        = .ret (w1, ((List.range 4294967295).map
            fun (i : Nat) => Except.ok (NewBlock "f" (i : Int))) ++ [.error .fileTooLarge])) := by
  refine ⟨⟨rfl, ?_⟩, rfl, ?_⟩
  · have h := Page_Append_of (World.fresh "db") NewPage "sub/x.dat" _ rfl
      (FileManager_Append_open_error (World.fresh "db") "sub/x.dat" NewPage.contents .notExist
        (World.fresh_WF "db") rfl (by decide))
    simp only [appendEach, h, Outcome.bind]
  · obtain ⟨w1, h1, hb1, hex, hwf1, hdb1, hmax1⟩ := appendEach_spec "f"
      (List.replicate 4294967295 NewPage) (World.fresh "db") 0 (World.fresh_WF "db") rfl
      (Or.inr ⟨rfl, by decide⟩)
      (by rw [List.length_replicate, World.fresh_maxBytes]
          norm_num [BLOCK_SIZE, EXT4_MAX_BYTES])
      (replicate_NewPage_pages _)
    obtain ⟨d, hd⟩ := hex (by
      intro h
      have := congrArg List.length h
      rw [List.length_replicate] at this
      cases this)
    have hlen : d.length = 17592186040320 := by
      have hd2 : w1.disk.bytes (Join (World.fresh "db").fm.dbDir "f") = d := by
        simp [Disk.bytes, hd]
      rw [← hd2, hb1]
      rw [show (World.fresh "db").disk.bytes (Join (World.fresh "db").fm.dbDir "f") = [] from rfl,
        List.nil_append, concatContents_length _ (replicate_NewPage_pages _),
        List.length_replicate]
      norm_num [BLOCK_SIZE]
    have hd1 : w1.disk (Join w1.fm.dbDir "f") = some d := by rw [hdb1]; exact hd
    have hlast := Page_Append_of w1 NewPage "f" _ rfl
      (FileManager_Append_too_large w1 "f" NewPage.contents d hwf1 hd1
        (by rw [show NewPage.contents.length = 4096 from List.length_replicate _ _]; decide)
        (by rw [hlen, hmax1, World.fresh_maxBytes]; rfl)
        (by rw [hlen, show NewPage.contents.length = 4096 from List.length_replicate _ _]
            decide))
    refine ⟨w1.setHandle "f" ⟨Join w1.fm.dbDir "f", d.length⟩, ?_⟩
    rw [show List.replicate 4294967296 NewPage = List.replicate 4294967295 NewPage ++ [NewPage]
      from List.replicate_succ' 4294967295 NewPage, appendEach_append, h1]
    simp only [Outcome.bind, appendEach, hlast, Nat.zero_add, List.length_replicate]

/-! ## File lengths stay multiples of the block size -/

theorem Disk.set_aligned (d : Disk) (path : String) (x : List Byte) (hd : d.Aligned)
    (hx : x.length % BLOCK_SIZE = 0) : (d.set path x).Aligned := by
  intro q data hq
  simp only [Disk.set] at hq
  split at hq
  · cases hq; exact hx
  · exact hd q data hq

theorem OpenFile_aligned (d : Disk) (dirs : String → Bool) (name : String) (create : Bool)
    (hd : d.Aligned) : (OpenFile d dirs name create).1.Aligned := by
  unfold OpenFile
  split
  · exact hd
  · split
    · exact hd
    · split
      · exact Disk.set_aligned d name [] hd rfl
      · exact hd

theorem getOrOpen_aligned (w : World) (name : String) (create : Bool)
    (g : World × Except IOError OSFile) (h : FileManager.getOrOpen w name create = .ret g)
    (hd : w.disk.Aligned) : g.1.disk.Aligned := by
  unfold FileManager.getOrOpen at h
  obtain ⟨m1, -, h⟩ := Outcome.bind_eq_ret h
  dsimp only at h
  obtain ⟨m2, -, h⟩ := Outcome.bind_eq_ret h
  split at h
  · cases h; exact hd
  · split at h
    · cases h; exact OpenFile_aligned _ _ _ _ hd
    · obtain ⟨m3, -, h⟩ := Outcome.bind_eq_ret h
      obtain ⟨m4, -, h⟩ := Outcome.bind_eq_ret h
      cases h
      exact OpenFile_aligned _ _ _ _ hd

theorem writeAt_aligned (data p : List Byte) (pos : Nat) (hdata : data.length % BLOCK_SIZE = 0)
    (hpos : pos % BLOCK_SIZE = 0) (hp : p.length = BLOCK_SIZE) :
    (writeAt data pos p).length % BLOCK_SIZE = 0 := by
  rw [writeAt_length _ _ _ (by rw [hp]; decide), hp]
  simp only [BLOCK_SIZE] at hdata hpos ⊢
  omega

theorem toInt64_block_offset (n : Int) :
    (toInt64 (n * BLOCK_SIZE)).toNat % BLOCK_SIZE = 0 := by
  simp only [toInt64, BLOCK_SIZE]
  omega

theorem FileManager_Read_aligned (w : World) (blk : Block) (p : List Byte)
    (r : World × List Byte × Option IOError) (h : FileManager.Read w blk p = .ret r)
    (hd : w.disk.Aligned) : r.1.disk.Aligned := by
  unfold FileManager.Read at h
  obtain ⟨g, hg, h⟩ := Outcome.bind_eq_ret h
  have hga := getOrOpen_aligned _ _ _ _ hg hd
  split at h
  · cases h; exact hga
  · dsimp only at h
    split at h
    · cases h; exact hga
    · cases h; exact hga

/-- A seek that succeeds: the file exists, the new position is the returned one, and it is
within the largest file size. -/
theorem OSFile_Seek_ok (f : OSFile) (disk : Disk) (maxBytes : Nat) (offset : Int) (whence : Nat)
    (v : Int) (h : (f.Seek disk maxBytes offset whence).2 = .ok v) :
    ∃ data, disk f.path = some data ∧
      (f.Seek disk maxBytes offset whence).1 = ⟨f.path, v.toNat⟩ ∧ 0 ≤ v ∧
      v ≤ fileLimit maxBytes ∧
      v = (if whence = 0 then 0 else if whence = 1 then (f.pos : Int) else data.length)
        + offset := by
  unfold OSFile.Seek at h ⊢
  cases hd : disk f.path with
  | none =>
    simp only [hd] at h
    cases h
  | some data =>
    simp only [hd] at h ⊢
    by_cases hc : whence ≤ 2 ∧
        0 ≤ (if whence = 0 then (0 : Int) else if whence = 1 then (f.pos : Int)
          else data.length) + offset ∧
        (if whence = 0 then (0 : Int) else if whence = 1 then (f.pos : Int)
          else data.length) + offset ≤ fileLimit maxBytes
    · rw [if_pos hc] at h ⊢
      cases h
      exact ⟨data, rfl, rfl, hc.2.1, hc.2.2, rfl⟩
    · rw [if_neg hc] at h
      cases h

/-- A write of one block at a position that is a multiple of `BLOCK_SIZE` keeps the file
lengths multiples of `BLOCK_SIZE`: such a write is never cut at the largest file size, which
is a whole number of blocks. -/
theorem OSFile_Write_aligned (f : OSFile) (disk : Disk) (maxBlocks : Nat) (p : List Byte)
    (hd : disk.Aligned) (hpos : f.pos % BLOCK_SIZE = 0) (hp : p.length = BLOCK_SIZE) :
    (f.Write disk (maxBlocks * BLOCK_SIZE) p).2.1.Aligned := by
  unfold OSFile.Write
  cases hdisk : disk f.path with
  | none => exact hd
  | some data =>
    simp only
    split
    · exact hd
    · rename_i h1
      split
      · exact hd
      · rename_i h2
        split
        · rename_i h3
          exfalso
          simp only [fileLimit, hp, BLOCK_SIZE] at h1 h2 h3 hpos
          omega
        · exact Disk.set_aligned _ _ _ hd (writeAt_aligned _ _ _ (hd _ _ hdisk) hpos hp)

theorem FileManager_Write_aligned (w : World) (blk : Block) (p : List Byte)
    (r : World × Option IOError) (h : FileManager.Write w blk p = .ret r)
    (hd : w.disk.Aligned) (hp : p.length = BLOCK_SIZE) : r.1.disk.Aligned := by
  unfold FileManager.Write at h
  obtain ⟨g, hg, h⟩ := Outcome.bind_eq_ret h
  have hga := getOrOpen_aligned _ _ _ _ hg hd
  split at h
  · cases h; exact hga
  · rename_i file hfile
    dsimp only at h
    split at h
    · cases h; exact hga
    · rename_i v hv
      cases h
      obtain ⟨data, hdata, hs1, h0, hle, hval⟩ := OSFile_Seek_ok _ _ _ _ _ _ hv
      simp only [if_true, zero_add] at hval
      show (OSFile.Write _ g.1.disk (g.1.maxBlocks * BLOCK_SIZE) p).2.1.Aligned
      exact OSFile_Write_aligned _ g.1.disk g.1.maxBlocks p hga
        (by rw [hs1, hval]; exact toInt64_block_offset _) hp

theorem FileManager_Append_aligned (w : World) (name : String) (p : List Byte)
    (r : World × Except IOError Block) (h : FileManager.Append w name p = .ret r)
    (hd : w.disk.Aligned) (hp : p.length = BLOCK_SIZE) : r.1.disk.Aligned := by
  unfold FileManager.Append at h
  obtain ⟨g, hg, h⟩ := Outcome.bind_eq_ret h
  have hga := getOrOpen_aligned _ _ _ _ hg hd
  split at h
  · cases h; exact hga
  · rename_i file hfile
    split at h
    · cases h; exact hga
    · dsimp only at h
      split at h
      · cases h; exact hga
      · rename_i v hv
        obtain ⟨data, hdata, hs1, h0, hle, hval⟩ := OSFile_Seek_ok _ _ _ _ _ _ hv
        simp only [show ¬ (2 = 0) by decide, show ¬ (2 = 1) by decide, if_false,
          add_zero] at hval
        have hal : (OSFile.Write (file.Seek g.1.disk g.1.maxBytes 0 2).1 g.1.disk
            (g.1.maxBlocks * BLOCK_SIZE) p).2.1.Aligned :=
          OSFile_Write_aligned _ g.1.disk g.1.maxBlocks p hga
            (by rw [hs1, hval]; exact hga _ _ hdata) hp
        split at h
        · cases h; exact hal
        · cases h; exact hal

/-- C9: when every file has a length that is a multiple of `BLOCK_SIZE`, then after every
`Page.Read`, `Page.Write` (to any block number) and `Page.Append` of a page of `BLOCK_SIZE`
bytes that returns, with an error or without, every file still has a length that is a
multiple of `BLOCK_SIZE`. -/
theorem Page_io_keeps_files_aligned (w : World) (P : Page) (hal : w.disk.Aligned)
    (hlen : P.contents.length = BLOCK_SIZE) :
    (∀ blk r, P.Read w blk = .ret r → r.1.disk.Aligned) ∧
    (∀ blk r, P.Write w blk = .ret r → r.1.disk.Aligned) ∧
    (∀ filename r, P.Append w filename = .ret r → r.1.disk.Aligned) := by
  refine ⟨?_, ?_, ?_⟩
  · intro blk r h
    unfold Page.Read at h
    obtain ⟨mu1, -, h⟩ := Outcome.bind_eq_ret h
    obtain ⟨g, hg, h⟩ := Outcome.bind_eq_ret h
    obtain ⟨mu2, -, h⟩ := Outcome.bind_eq_ret h
    cases h
    exact FileManager_Read_aligned _ _ _ _ hg hal
  · intro blk r h
    unfold Page.Write at h
    obtain ⟨mu1, -, h⟩ := Outcome.bind_eq_ret h
    obtain ⟨g, hg, h⟩ := Outcome.bind_eq_ret h
    obtain ⟨mu2, -, h⟩ := Outcome.bind_eq_ret h
    cases h
    exact FileManager_Write_aligned _ _ _ _ hg hal hlen
  · intro filename r h
    unfold Page.Append at h
    obtain ⟨mu1, -, h⟩ := Outcome.bind_eq_ret h
    obtain ⟨g, hg, h⟩ := Outcome.bind_eq_ret h
    obtain ⟨mu2, -, h⟩ := Outcome.bind_eq_ret h
    cases h
    exact FileManager_Append_aligned _ _ _ _ hg hal hlen

/-- Handle resolution without `O_CREATE` on a path with no file: an error, nothing changes.
The error is the one the system has for the path, and `ENOENT` when it has no other. -/
theorem getOrOpen_missing (w : World) (name : String) (hwf : w.WF)
    (hd : w.disk (Join w.fm.dbDir name) = none) :
    FileManager.getOrOpen w name false
      = .ret (w, .error ((openError w.disk w.dirs (Join w.fm.dbDir name)).getD .notExist)) := by
  cases he : openError w.disk w.dirs (Join w.fm.dbDir name) with
  | some e => exact getOrOpen_error w name false e hwf hd he
  | none =>
    obtain ⟨⟨hmu, hh⟩, hsz⟩ := hwf
    have hc : w.fm.openFiles name = none := by
      cases hc : w.fm.openFiles name with
      | none => rfl
      | some file =>
        obtain ⟨hpath, data, hdata⟩ := hh name file hc
        rw [hpath, hd] at hdata
        cases hdata
    unfold FileManager.getOrOpen
    rw [RLock_RUnlock _ (by rw [hmu]; rfl)]
    simp only [hc, OpenFile, hd, he]
    rfl

/-- `Page.Read` of an unlocked page on a file name with no file. -/
theorem Page_Read_missing (w : World) (P : Page) (blk : Block) (hmu : P.mu = RWMutex.free)
    (hwf : w.WF) (hd : w.disk (Join w.fm.dbDir blk.FileName) = none) :
    P.Read w blk = .ret (w, P,
      some ((openError w.disk w.dirs (Join w.fm.dbDir blk.FileName)).getD .notExist)) := by
  unfold Page.Read FileManager.Read
  rw [getOrOpen_missing w blk.FileName hwf hd]
  cases P with
  | mk mu contents =>
    simp only at hmu
    subst hmu
    rfl

theorem World.withFile_aligned (dbDir name : String) (data : List Byte)
    (h : data.length % BLOCK_SIZE = 0) : (World.withFile dbDir name data).disk.Aligned :=
  Disk.set_aligned _ _ _ (fun _ _ hq => by cases hq) h

/-- Witness for C9: on a directory holding one block in `test.dat`, a read of a missing file
fails, a write to block 3 and an append succeed, and the lengths stay multiples of
`BLOCK_SIZE`. -/
theorem Page_io_keeps_files_aligned_witness :
    ∃ r1 r2 r3,
      NewPage.Read (World.withFile "db" "test.dat" (List.replicate 4096 0))
        (NewBlock "none.dat" 0) = .ret r1 ∧ r1.2.2 = some .notExist ∧ r1.1.disk.Aligned ∧
      NewPage.Write (World.withFile "db" "test.dat" (List.replicate 4096 0))
        (NewBlock "test.dat" 3) = .ret r2 ∧ r2.2.2 = none ∧ r2.1.disk.Aligned ∧
      NewPage.Append (World.withFile "db" "test.dat" (List.replicate 4096 0)) "test.dat"
        = .ret r3 ∧ r3.1.disk.Aligned := by
  have hwf := World.withFile_WF "db" "test.dat" (List.replicate 4096 0)
    (by rw [List.length_replicate]; decide)
  have hmiss : (World.withFile "db" "test.dat" (List.replicate 4096 0)).disk
      (Join (World.withFile "db" "test.dat" (List.replicate 4096 0)).fm.dbDir
        (NewBlock "none.dat" 0).FileName) = none := by
    show (if Join "db" "none.dat" = Join "db" "test.dat" then some (List.replicate 4096 0)
      else none) = none
    rw [if_neg (by decide)]
  have he : openError (World.withFile "db" "test.dat" (List.replicate 4096 0)).disk
      (World.withFile "db" "test.dat" (List.replicate 4096 0)).dirs
      (Join (World.withFile "db" "test.dat" (List.replicate 4096 0)).fm.dbDir
        (NewBlock "none.dat" 0).FileName) = none := by decide
  have h1 := Page_Read_missing _ NewPage (NewBlock "none.dat" 0) rfl hwf hmiss
  rw [he] at h1
  have hlen : NewPage.contents.length = 4096 := List.length_replicate _ _
  have h2 := Page_Write_existing _ NewPage (NewBlock "test.dat" 3) _ rfl hwf
    (World.withFile_disk "db" "test.dat" (List.replicate 4096 0)) (by decide)
    (by rw [hlen, World.withFile_maxBytes]; decide)
  have h3 := Page_Append_WF _ NewPage "test.dat" rfl hwf
    (Or.inl ⟨_, World.withFile_disk "db" "test.dat" (List.replicate 4096 0)⟩)
    (by rw [World.withFile_bytes, hlen, List.length_replicate, World.withFile_maxBytes]
        decide)
  have hall := Page_io_keeps_files_aligned
    (World.withFile "db" "test.dat" (List.replicate 4096 0)) NewPage
    (World.withFile_aligned _ _ _ (by rw [List.length_replicate]; decide))
    (List.length_replicate _ _)
  exact ⟨_, _, _, h1, rfl, hall.1 _ _ h1, h2, rfl, hall.2.1 _ _ h2, h3, hall.2.2 _ _ h3⟩

/-- Witness for C8: on a new page, `SetInt`, then `Append` to a new file, then `Write` to
block 2 of that file all return. -/
theorem Page_buffer_length_invariant_witness :
    ∃ w1 p1, runOps (World.fresh "db") NewPage
        [.setInt 0 123, .append "test.dat", .write (NewBlock "test.dat" 2)] = .ret (w1, p1) ∧
      NewPage.contents = List.replicate 4096 0 ∧ NewPage.contents.length = BLOCK_SIZE ∧
      p1.contents.length = BLOCK_SIZE := by
  obtain ⟨c, hc⟩ : ∃ c, NewPage.SetInt 0 123 = .ret ⟨RWMutex.free, c⟩ :=
    ⟨_, SetInt_ret NewPage 0 123 rfl (by decide)
      (by rw [show NewPage.contents.length = 4096 from List.length_replicate _ _]; decide)⟩
  have hwf := World.fresh_WF "db"
  have hclen : c.length = 4096 :=
    (SetInt_length NewPage ⟨RWMutex.free, c⟩ 0 123 hc).trans (List.length_replicate _ _)
  have hfitA : ((World.fresh "db").disk.bytes (Join (World.fresh "db").fm.dbDir "test.dat")).length
      + (⟨RWMutex.free, c⟩ : Page).contents.length ≤ (World.fresh "db").maxBytes := by
    rw [show (World.fresh "db").disk.bytes (Join (World.fresh "db").fm.dbDir "test.dat") = []
      from rfl, World.fresh_maxBytes]
    show 0 + c.length ≤ EXT4_MAX_BYTES
    rw [hclen]
    decide
  obtain ⟨wA, bA, hA, hwfA, hmaxA, dA, hdA⟩ : ∃ wA bA,
      Page.Append (World.fresh "db") ⟨RWMutex.free, c⟩ "test.dat"
        = .ret (wA, ⟨RWMutex.free, c⟩, bA) ∧ wA.WF ∧ wA.maxBytes = EXT4_MAX_BYTES ∧
      ∃ d, wA.disk (Join wA.fm.dbDir (NewBlock "test.dat" 2).FileName) = some d :=
    ⟨_, _, Page_Append_WF (World.fresh "db") ⟨RWMutex.free, c⟩ "test.dat" rfl hwf
        (Or.inr World.fresh_CanCreate_test) hfitA,
      transferred_WF _ _ _ _ hwf (by rw [List.length_append]; exact hfitA),
      World.fresh_maxBytes "db", _, transferred_disk _ _ _ _ _⟩
  have h3 := Page_Write_existing wA ⟨RWMutex.free, c⟩ (NewBlock "test.dat" 2) dA rfl hwfA hdA
    (by decide)
    (by rw [hmaxA]
        show (toInt64 ((NewBlock "test.dat" 2).Number * BLOCK_SIZE)).toNat + c.length
          ≤ EXT4_MAX_BYTES
        rw [hclen]
        decide)
  obtain ⟨⟨w1, p1⟩, h⟩ : ∃ r, runOps (World.fresh "db") NewPage
      [.setInt 0 123, .append "test.dat", .write (NewBlock "test.dat" 2)] = .ret r := by
    simp only [runOps, PageOp.run, hc, Outcome.bind, hA, h3]
    exact ⟨_, rfl⟩
  exact ⟨w1, p1, h, Page_buffer_length_invariant _ _ _ _ h⟩

/-! ## Blocks -/

/-- C13: for all blocks `a` and `b`, `a.Equal(b)` is true exactly when the file names and the
block numbers are equal; `Equal` is reflexive and symmetric; `NewBlock(f, n).FileName()` is
`f` and `NewBlock(f, n).Number()` is `n`. -/
theorem Block_Equal_iff (a b : Block) :
    (a.Equal b = true ↔ a.FileName = b.FileName ∧ a.Number = b.Number) ∧
    a.Equal a = true ∧ a.Equal b = b.Equal a ∧
    ∀ (f : String) (n : Int), (NewBlock f n).FileName = f ∧ (NewBlock f n).Number = n := by
  refine ⟨?_, ?_, ?_, fun f n => ⟨rfl, rfl⟩⟩
  · simp [Block.Equal, Block.FileName, Block.Number]
  · simp [Block.Equal]
  · simp only [Block.Equal]
    rw [Bool.eq_iff_iff]
    simp only [Bool.and_eq_true, decide_eq_true_eq]
    constructor <;> rintro ⟨h1, h2⟩ <;> exact ⟨h1.symm, h2.symm⟩

/-! ## A file name with no file -/

/-- Handle resolution without `O_CREATE` for a name with no handle and no file: the error
the system has for the path, `ENOENT` when it has no other. -/
theorem getOrOpen_absent (w : World) (name : String) (hmu : w.fm.mu = RWMutex.free)
    (hc : w.fm.openFiles name = none) (hd : w.disk (Join w.fm.dbDir name) = none) :
    FileManager.getOrOpen w name false
      = .ret (w, .error ((openError w.disk w.dirs (Join w.fm.dbDir name)).getD .notExist)) := by
  unfold FileManager.getOrOpen
  rw [RLock_RUnlock _ (by rw [hmu]; rfl)]
  cases he : openError w.disk w.dirs (Join w.fm.dbDir name) with
  | some e => simp only [hc, OpenFile, hd, he, Option.getD_some]
  | none =>
    simp only [hc, OpenFile, hd, he]
    rfl

/-- Handle resolution with `O_CREATE` for a name with no handle and no file, on a path where
the system lets a file be made. -/
theorem getOrOpen_absent_create (w : World) (name : String) (hmu : w.fm.mu = RWMutex.free)
    (hc : w.fm.openFiles name = none) (hd : w.disk (Join w.fm.dbDir name) = none)
    (he : openError w.disk w.dirs (Join w.fm.dbDir name) = none) :
    FileManager.getOrOpen w name true
      = .ret (World.setHandle { w with disk := w.disk.set (Join w.fm.dbDir name) [] } name
          ⟨Join w.fm.dbDir name, 0⟩, .ok ⟨Join w.fm.dbDir name, 0⟩) := by
  unfold FileManager.getOrOpen
  rw [RLock_RUnlock _ (by rw [hmu]; rfl)]
  simp only [hc, OpenFile, hd, he, if_true]
  rw [Lock_Unlock _ hmu]
  cases w with
  | mk disk fm dirs maxBytes =>
    cases fm with
    | mk mu dbDir openFiles =>
      simp only at hmu
      subst hmu
      rfl

/-- `FileManager.Append` of a buffer longer than the largest file size on a path with no
file, where the system lets a file be made: the file is made, the bytes that fit are written
and the error `EFBIG` of the write is returned. -/
theorem FileManager_Append_create_cut (w : World) (name : String) (p : List Byte)
    (hmu : w.fm.mu = RWMutex.free) (hc : w.fm.openFiles name = none)
    (hd : w.disk (Join w.fm.dbDir name) = none)
    (he : openError w.disk w.dirs (Join w.fm.dbDir name) = none)
    (hpos : 0 < fileLimit w.maxBytes) (hbig : fileLimit w.maxBytes < p.length)
    (hsmall : p.length < 9223372036854775808) :
    FileManager.Append w name p = .ret
      (w.transferred name (Join w.fm.dbDir name) (p.take (fileLimit w.maxBytes))
        (fileLimit w.maxBytes), .error .fileTooLarge) := by
  unfold FileManager.Append
  rw [getOrOpen_absent_create w name hmu hc hd he]
  have hd1 : (World.setHandle { w with disk := w.disk.set (Join w.fm.dbDir name) [] } name
      ⟨Join w.fm.dbDir name, 0⟩).disk (Join w.fm.dbDir name) = some [] := by
    simp [World.setHandle, Disk.set]
  have hmb : (World.setHandle { w with disk := w.disk.set (Join w.fm.dbDir name) [] } name
      ⟨Join w.fm.dbDir name, 0⟩).maxBytes = w.maxBytes := rfl
  have hwr := OSFile_Write_cut ⟨Join w.fm.dbDir name, 0⟩
    (World.setHandle { w with disk := w.disk.set (Join w.fm.dbDir name) [] } name
      ⟨Join w.fm.dbDir name, 0⟩).disk w.maxBytes p [] hd1
    (by simpa using hsmall) hpos (by simpa using hbig)
  have hw0 : writeAt [] 0 (List.take (fileLimit w.maxBytes) p)
      = List.take (fileLimit w.maxBytes) p := by
    have := writeAt_end [] (List.take (fileLimit w.maxBytes) p)
    simpa using this
  simp only [Nat.sub_zero, hw0] at hwr
  have hseek : (0 : Int) ≤ (fileLimit w.maxBytes : Int) := Int.ofNat_nonneg _
  simp only [Outcome.bind, OSFile.Stat, OSFile.Seek, hd1, hmb,
    show ¬ (2 = 0) by decide, show ¬ (2 = 1) by decide, if_false, le_refl, add_zero,
    List.length_nil, Nat.cast_zero, hseek, and_self, if_true, Int.toNat_zero, hwr]
  rw [setHandle_disk_setHandle]
  simp only [World.setHandle, Disk.set_set, World.transferred]

/-- C11, as amended: for a file name with no file in the directory and no stored handle,
when nobody holds the map lock: `FileManager.Read` and `FileManager.Write` return an error
(the one the system has for the path, `ENOENT` when it has no other) and leave the world as
it was (no file is made, no handle is stored), `Read` leaves the caller's buffer as it was;
`FileManager.Append` on the same name, when the system lets a file be made on that path (the
name is well-formed, it names no directory, and every directory on the way exists) and the
buffer is no longer than the largest file size, makes the file, returns block 0 without
error, and the file then holds the buffer. -/
theorem FileManager_missing_file (w : World) (name : String) (n : Int) (p : List Byte)
    (hmu : w.fm.mu = RWMutex.free) (hc : w.fm.openFiles name = none)
    (hd : w.disk (Join w.fm.dbDir name) = none) :
    FileManager.Read w (NewBlock name n) p = .ret (w, p,
      some ((openError w.disk w.dirs (Join w.fm.dbDir name)).getD .notExist)) ∧
    FileManager.Write w (NewBlock name n) p = .ret (w,
      some ((openError w.disk w.dirs (Join w.fm.dbDir name)).getD .notExist)) ∧
    (openError w.disk w.dirs (Join w.fm.dbDir name) = none →
      p.length ≤ fileLimit w.maxBytes →
      ∃ w1, FileManager.Append w name p = .ret (w1, .ok (NewBlock name 0)) ∧
        w1.disk (Join w.fm.dbDir name) = some p ∧
        w1.fm.openFiles name = some ⟨Join w.fm.dbDir name, p.length⟩) := by
  refine ⟨?_, ?_, ?_⟩
  · unfold FileManager.Read
    rw [show (NewBlock name n).FileName = name from rfl, getOrOpen_absent w name hmu hc hd]
    rfl
  · unfold FileManager.Write
    rw [show (NewBlock name n).FileName = name from rfl, getOrOpen_absent w name hmu hc hd]
    rfl
  · intro he hfit
    refine ⟨w.transferred name (Join w.fm.dbDir name) p p.length, ?_,
      transferred_disk _ _ _ _ _, transferred_handle _ _ _ _ _⟩
    unfold FileManager.Append
    rw [getOrOpen_absent_create w name hmu hc hd he]
    have hd1 : (World.setHandle { w with disk := w.disk.set (Join w.fm.dbDir name) [] } name
        ⟨Join w.fm.dbDir name, 0⟩).disk (Join w.fm.dbDir name) = some [] := by
      simp [World.setHandle, Disk.set]
    obtain ⟨h1, h2, h3⟩ := SeekEnd_Write_fits ⟨Join w.fm.dbDir name, 0⟩
      (World.setHandle { w with disk := w.disk.set (Join w.fm.dbDir name) [] } name
        ⟨Join w.fm.dbDir name, 0⟩).disk
      (World.setHandle { w with disk := w.disk.set (Join w.fm.dbDir name) [] } name
        ⟨Join w.fm.dbDir name, 0⟩).maxBytes p [] hd1
      (by rw [show (World.setHandle { w with disk := w.disk.set (Join w.fm.dbDir name) [] }
            name ⟨Join w.fm.dbDir name, 0⟩).maxBytes = w.maxBytes from rfl]
          simpa using hfit)
    simp only [List.length_nil, Nat.cast_zero, zero_add, List.nil_append] at h1 h2 h3
    simp only [Outcome.bind, OSFile.Stat, hd1, h1, h2, h3]
    rw [setHandle_disk_setHandle]
    simp only [World.setHandle, Disk.set_set, World.transferred, List.length_nil,
      Nat.zero_div, Nat.cast_zero]

/-- Witness for C11: the name `test.dat` in a directory with no file. -/
theorem FileManager_missing_file_witness :
    FileManager.Read (World.fresh "db") (NewBlock "test.dat" 0) [1, 2]
      = .ret (World.fresh "db", [1, 2], some .notExist) ∧
    FileManager.Write (World.fresh "db") (NewBlock "test.dat" 0) [1, 2]
      = .ret (World.fresh "db", some .notExist) ∧
    ∃ w1, FileManager.Append (World.fresh "db") "test.dat" [1, 2]
        = .ret (w1, .ok (NewBlock "test.dat" 0)) ∧
      w1.disk (Join (World.fresh "db").fm.dbDir "test.dat") = some [1, 2] ∧
      w1.fm.openFiles "test.dat"
        = some ⟨Join (World.fresh "db").fm.dbDir "test.dat", ([1, 2] : List Byte).length⟩ := by
  have he : openError (World.fresh "db").disk (World.fresh "db").dirs
      (Join (World.fresh "db").fm.dbDir "test.dat") = none := by decide
  have h := FileManager_missing_file (World.fresh "db") "test.dat" 0 [1, 2] rfl rfl rfl
  rw [he] at h
  exact ⟨h.1, h.2.1, h.2.2 rfl
    (by rw [fileLimit_eq _ (World.fresh_WF "db").2, World.fresh_maxBytes]; decide)⟩

/-- Counterexample to C11 as stated.  In a new directory `db` on ext4 the names `sub/x.dat`
and the empty name have no file and no handle, yet `FileManager.Append` makes no file for
them: the first lies below the directory `db/sub`, which does not exist (`ENOENT`), the
second is the directory `db` itself (`EISDIR`).  The name `f` has no file and no handle
either, and `Append` of a buffer one byte longer than the largest file size makes the file,
writes the bytes that fit and returns `EFBIG`. -/
theorem FileManager_missing_file_counterexample :
    ((World.fresh "db").fm.openFiles "sub/x.dat" = none ∧
      (World.fresh "db").disk (Join (World.fresh "db").fm.dbDir "sub/x.dat") = none ∧
      FileManager.Append (World.fresh "db") "sub/x.dat" [1, 2]
        = .ret (World.fresh "db", .error .notExist)) ∧
    ((World.fresh "db").fm.openFiles "" = none ∧
      (World.fresh "db").disk (Join (World.fresh "db").fm.dbDir "") = none ∧
      FileManager.Append (World.fresh "db") "" [1, 2]
        = .ret (World.fresh "db", .error .isDirectory)) ∧
    ((World.fresh "db").fm.openFiles "f" = none ∧
      (World.fresh "db").disk (Join (World.fresh "db").fm.dbDir "f") = none ∧
      ∃ w1, FileManager.Append (World.fresh "db") "f" (List.replicate 17592186040321 0)
        = .ret (w1, .error .fileTooLarge)) := by
  have hlim : fileLimit (World.fresh "db").maxBytes = 17592186040320 := by
    rw [fileLimit_eq _ (World.fresh_WF "db").2, World.fresh_maxBytes]
    rfl
  have h1 := FileManager_Append_open_error (World.fresh "db") "sub/x.dat" [1, 2] .notExist
    (World.fresh_WF "db") rfl (by decide)
  have h2 := FileManager_Append_open_error (World.fresh "db") "" [1, 2] .isDirectory
    (World.fresh_WF "db") rfl (by decide)
  have h3 := FileManager_Append_create_cut (World.fresh "db") "f"
    (List.replicate 17592186040321 0) rfl rfl rfl (by decide)
    (by rw [hlim]; decide) (by rw [hlim, List.length_replicate]; decide)
    (by rw [List.length_replicate]; decide)
  exact ⟨⟨rfl, rfl, h1⟩, ⟨rfl, rfl, h2⟩, rfl, rfl, _, h3⟩

/-! ## Short reads -/

/-- `FileManager.Read` on a file that exists, at a block whose wrapped byte offset is not
negative and within the largest file size: the transfer is the one `file.Read` makes at that
offset. -/
theorem FileManager_Read_existing (w : World) (blk : Block) (p data : List Byte) (hwf : w.WF)
    (hd : w.disk (Join w.fm.dbDir blk.FileName) = some data)
    (hpos : 0 ≤ toInt64 (blk.Number * BLOCK_SIZE))
    (hseek : toInt64 (blk.Number * BLOCK_SIZE) ≤ w.maxBytes) :
    FileManager.Read w blk p = .ret
      (w.setHandle blk.FileName
        ((⟨Join w.fm.dbDir blk.FileName, (toInt64 (blk.Number * BLOCK_SIZE)).toNat⟩ : OSFile).Read
          w.disk p).1,
        ((⟨Join w.fm.dbDir blk.FileName, (toInt64 (blk.Number * BLOCK_SIZE)).toNat⟩ : OSFile).Read
          w.disk p).2.1,
        ((⟨Join w.fm.dbDir blk.FileName, (toInt64 (blk.Number * BLOCK_SIZE)).toNat⟩ : OSFile).Read
          w.disk p).2.2) := by
  obtain ⟨pos0, hg⟩ := getOrOpen_existing w blk.FileName false data hwf hd
  unfold FileManager.Read
  rw [hg]
  have hd1 : (w.setHandle blk.FileName ⟨Join w.fm.dbDir blk.FileName, pos0⟩).disk
      (Join w.fm.dbDir blk.FileName) = some data := hd
  have hmb : (w.setHandle blk.FileName ⟨Join w.fm.dbDir blk.FileName, pos0⟩).maxBytes
      = w.maxBytes := rfl
  have hs : toInt64 (blk.Number * BLOCK_SIZE) ≤ (fileLimit w.maxBytes : Int) := by
    rw [fileLimit_eq w hwf.2]
    exact hseek
  simp only [Outcome.bind, OSFile.Seek, hd1, hmb, if_true, Nat.cast_zero, zero_add,
    le_refl, true_and, Nat.zero_le, hpos, hs, and_self]
  rw [setHandle_setHandle]
  rfl

/-- `Page.Read` of an unlocked page on a file that exists. -/
theorem Page_Read_existing (w : World) (P : Page) (blk : Block) (data : List Byte)
    (hmu : P.mu = RWMutex.free) (hwf : w.WF)
    (hd : w.disk (Join w.fm.dbDir blk.FileName) = some data)
    (hpos : 0 ≤ toInt64 (blk.Number * BLOCK_SIZE))
    (hseek : toInt64 (blk.Number * BLOCK_SIZE) ≤ w.maxBytes) :
    P.Read w blk = .ret
      (w.setHandle blk.FileName
        ((⟨Join w.fm.dbDir blk.FileName, (toInt64 (blk.Number * BLOCK_SIZE)).toNat⟩ : OSFile).Read
          w.disk P.contents).1,
        ⟨RWMutex.free,
          ((⟨Join w.fm.dbDir blk.FileName, (toInt64 (blk.Number * BLOCK_SIZE)).toNat⟩ :
            OSFile).Read w.disk P.contents).2.1⟩,
        ((⟨Join w.fm.dbDir blk.FileName, (toInt64 (blk.Number * BLOCK_SIZE)).toNat⟩ : OSFile).Read
          w.disk P.contents).2.2) := by
  unfold Page.Read
  rw [FileManager_Read_existing w blk P.contents data hwf hd hpos hseek, hmu]
  rfl

/-- C12, as amended: for every file that exists (its size an int64, so below `2^63`), every
block number `n ≥ 0` and every `k` with `1 ≤ k < BLOCK_SIZE` such that the file ends `k` bytes
after the start of the block: `Page.Read` of an unlocked page of `BLOCK_SIZE` bytes returns
no error, the first `k` bytes of the buffer are the `k` bytes of the file from the start of
the block, and the other `BLOCK_SIZE - k` bytes of the buffer are what they were. -/
theorem Page_Read_short (w : World) (P : Page) (f : String) (n : Int) (data : List Byte)
    (k : Nat) (hwf : w.WF) (hmu : P.mu = RWMutex.free) (hlen : P.contents.length = BLOCK_SIZE)
    (hd : w.disk (Join w.fm.dbDir f) = some data) (hsz : data.length < 9223372036854775808)
    (hn : 0 ≤ n) (hk1 : 1 ≤ k) (hk2 : k < BLOCK_SIZE)
    (hk : (data.length : Int) = n * BLOCK_SIZE + k) :
    ∃ w1 P1, P.Read w (NewBlock f n) = .ret (w1, P1, none) ∧
      P1.contents.length = BLOCK_SIZE ∧
      P1.contents.take k = data.drop (n * BLOCK_SIZE).toNat ∧
      P1.contents.drop k = P.contents.drop k := by
  have hnb : 0 ≤ n * BLOCK_SIZE := by simp only [BLOCK_SIZE]; omega
  have hlt : n * (BLOCK_SIZE : Int) < 9223372036854775808 := by omega
  have hto : toInt64 ((NewBlock f n).Number * BLOCK_SIZE) = n * BLOCK_SIZE :=
    toInt64_of_range _ hnb hlt
  have hd1 : w.disk (Join w.fm.dbDir (NewBlock f n).FileName) = some data := hd
  have hmax := hwf.2.1
  have hfile := hwf.2.2.1 _ _ hd
  have hmb : w.maxBytes = w.maxBlocks * 4096 := rfl
  have hr := Page_Read_existing w P (NewBlock f n) data hmu hwf hd (by rw [hto]; exact hnb)
    (by rw [hto]; omega)
  rw [hto] at hr
  have hkk : min P.contents.length (data.length - (n * BLOCK_SIZE).toNat) = k := by
    rw [hlen]; omega
  have hp0 : ¬ P.contents.length = 0 := by rw [hlen]; decide
  have hk0 : ¬ k = 0 := by omega
  have hdl : (data.drop (n * BLOCK_SIZE).toNat).length = k := by
    rw [List.length_drop]; omega
  have hs : ¬ 9223372036854775808 ≤ (n * BLOCK_SIZE).toNat + P.contents.length := by
    rw [hlen]
    simp only [BLOCK_SIZE] at hk hk2 ⊢
    omega
  simp only [OSFile.Read, hd1, hkk, hp0, hk0, hs, if_false] at hr
  rw [List.take_of_length_le (by omega)] at hr
  refine ⟨_, _, hr, ?_, ?_, ?_⟩
  · simp only [List.length_append, List.length_drop, hdl, hlen]
    omega
  · rw [← hdl, List.take_left]
  · rw [List.drop_append_eq_append_drop, hdl, Nat.sub_self, List.drop_zero,
      List.drop_eq_nil_of_le (by omega), List.nil_append]

/-- Witness for C12, as amended: block 0 of a three-byte file read into a new page. -/
theorem Page_Read_short_witness :
    ∃ w1 P1, NewPage.Read (World.withFile "db" "f" [1, 2, 3]) (NewBlock "f" 0)
        = .ret (w1, P1, none) ∧
      P1.contents.length = BLOCK_SIZE ∧
      P1.contents.take 3 = ([1, 2, 3] : List Byte).drop ((0 : Int) * BLOCK_SIZE).toNat ∧
      P1.contents.drop 3 = NewPage.contents.drop 3 :=
  Page_Read_short (World.withFile "db" "f" [1, 2, 3]) NewPage "f" 0 [1, 2, 3] 3
    (World.withFile_WF "db" "f" [1, 2, 3] (by decide)) rfl (List.length_replicate _ _)
    (World.withFile_disk "db" "f" [1, 2, 3]) (by decide) (by decide) (by decide) (by decide)
    (by decide)

/-- `Page.Read` of an unlocked page with a non-empty buffer at or beyond the end of a file
that exists, within the largest file size: `io.EOF`, and the buffer is left as it was. -/
theorem Page_Read_eof (w : World) (P : Page) (blk : Block) (data : List Byte)
    (hmu : P.mu = RWMutex.free) (hwf : w.WF)
    (hd : w.disk (Join w.fm.dbDir blk.FileName) = some data)
    (hpos : 0 ≤ toInt64 (blk.Number * BLOCK_SIZE))
    (hseek : toInt64 (blk.Number * BLOCK_SIZE) ≤ w.maxBytes)
    (hsmall : (toInt64 (blk.Number * BLOCK_SIZE)).toNat + P.contents.length
      < 9223372036854775808)
    (hp : P.contents.length ≠ 0)
    (hend : data.length ≤ (toInt64 (blk.Number * BLOCK_SIZE)).toNat) :
    P.Read w blk = .ret
      (w.setHandle blk.FileName
        ⟨Join w.fm.dbDir blk.FileName, (toInt64 (blk.Number * BLOCK_SIZE)).toNat⟩, P,
        some .eof) := by
  have hr := Page_Read_existing w P blk data hmu hwf hd hpos hseek
  have hk : min P.contents.length (data.length - (toInt64 (blk.Number * BLOCK_SIZE)).toNat)
      = 0 := by omega
  have hp0 : ¬ P.contents.length = 0 := hp
  have hs : ¬ 9223372036854775808
      ≤ (toInt64 (blk.Number * BLOCK_SIZE)).toNat + P.contents.length := by omega
  simp only [OSFile.Read, hd, hk, hp0, hs, if_false, if_true] at hr
  rw [hr]
  cases P with
  | mk mu contents =>
    simp only at hmu
    subst hmu
    rfl

/-- C12 fails as stated for `k = 0`: block 0 of an empty file that exists has no byte
available, and `Page.Read` of a new page reports `io.EOF`, not success; the buffer is left as
it was. -/
theorem Page_Read_short_counterexample :
    ∃ w1, NewPage.Read (World.withFile "db" "f" []) (NewBlock "f" 0)
      = .ret (w1, NewPage, some .eof) :=
  ⟨_, Page_Read_eof (World.withFile "db" "f" []) NewPage (NewBlock "f" 0) [] rfl
    (World.withFile_WF "db" "f" [] (by decide)) (World.withFile_disk "db" "f" []) (by decide)
    (by rw [World.withFile_maxBytes]; decide)
    (by rw [show NewPage.contents.length = 4096 from List.length_replicate _ _]; decide)
    (by rw [show NewPage.contents.length = 4096 from List.length_replicate _ _]; decide)
    (Nat.zero_le _)⟩

/-! ## Other files are left alone -/

theorem transferred_disk_ne (w : World) (name path q : String) (data : List Byte) (pos : Nat)
    (hq : q ≠ path) : (w.transferred name path data pos).disk q = w.disk q := by
  simp [World.transferred, World.setHandle, Disk.set, hq]

/-- Between calls handle resolution returns; it changes no file on another path than the one
of the name, and a handle it returns is on that path. -/
theorem getOrOpen_WF_cases (w : World) (name : String) (create : Bool) (hwf : w.WF) :
    ∃ g, FileManager.getOrOpen w name create = .ret g ∧
      (∀ q, q ≠ Join w.fm.dbDir name → g.1.disk q = w.disk q) ∧
      (∀ file, g.2 = .ok file → file.path = Join w.fm.dbDir name) := by
  cases hd : w.disk (Join w.fm.dbDir name) with
  | some data =>
    obtain ⟨pos0, hg⟩ := getOrOpen_existing w name create data hwf hd
    refine ⟨_, hg, fun q _ => rfl, ?_⟩
    intro file hfile
    cases hfile
    rfl
  | none =>
    cases he : openError w.disk w.dirs (Join w.fm.dbDir name) with
    | some e =>
      refine ⟨_, getOrOpen_error w name create e hwf hd he, fun q _ => rfl, ?_⟩
      intro file hfile
      cases hfile
    | none =>
      cases create with
      | true =>
        refine ⟨_, getOrOpen_create w name hwf ⟨hd, he⟩, ?_, ?_⟩
        · intro q hq
          simp [World.setHandle, Disk.set, hq]
        · intro file hfile
          cases hfile
          rfl
      | false =>
        refine ⟨_, getOrOpen_missing w name hwf hd, fun q _ => rfl, ?_⟩
        intro file hfile
        cases hfile

theorem OSFile_Seek_path (f : OSFile) (disk : Disk) (maxBytes : Nat) (offset : Int)
    (whence : Nat) : (f.Seek disk maxBytes offset whence).1.path = f.path := by
  unfold OSFile.Seek
  cases disk f.path with
  | none => rfl
  | some data =>
    simp only
    split_ifs <;> rfl

/-- A write through a handle changes no file on another path. -/
theorem OSFile_Write_other (f : OSFile) (disk : Disk) (maxBytes : Nat) (p : List Byte)
    (q : String) (hq : q ≠ f.path) : (f.Write disk maxBytes p).2.1 q = disk q := by
  unfold OSFile.Write
  cases disk f.path with
  | none => rfl
  | some data =>
    simp only
    split_ifs <;> simp [Disk.set, hq]

/-- Between calls `FileManager.Write` returns, and it changes no file on another path than
the one of its file name. -/
theorem FileManager_Write_frame (w : World) (blk : Block) (p : List Byte) (q : String)
    (hwf : w.WF) (hq : q ≠ Join w.fm.dbDir blk.FileName) :
    ∃ r, FileManager.Write w blk p = .ret r ∧ r.1.disk q = w.disk q := by
  obtain ⟨⟨gw, ge⟩, hg, hfr, hpath⟩ := getOrOpen_WF_cases w blk.FileName false hwf
  unfold FileManager.Write
  rw [hg]
  simp only [Outcome.bind]
  cases ge with
  | error e => exact ⟨_, rfl, hfr q hq⟩
  | ok file =>
    have hfp : file.path = Join w.fm.dbDir blk.FileName := hpath file rfl
    dsimp only
    split
    · exact ⟨_, rfl, hfr q hq⟩
    · refine ⟨_, rfl, ?_⟩
      show (OSFile.Write _ gw.disk gw.maxBytes p).2.1 q = w.disk q
      rw [OSFile_Write_other _ _ _ _ _ (by rw [OSFile_Seek_path, hfp]; exact hq)]
      exact hfr q hq

/-- Between calls `FileManager.Append` returns, and it changes no file on another path than
the one of its file name. -/
theorem FileManager_Append_frame (w : World) (name : String) (p : List Byte) (q : String)
    (hwf : w.WF) (hq : q ≠ Join w.fm.dbDir name) :
    ∃ r, FileManager.Append w name p = .ret r ∧ r.1.disk q = w.disk q := by
  obtain ⟨⟨gw, ge⟩, hg, hfr, hpath⟩ := getOrOpen_WF_cases w name true hwf
  unfold FileManager.Append
  rw [hg]
  simp only [Outcome.bind]
  cases ge with
  | error e => exact ⟨_, rfl, hfr q hq⟩
  | ok file =>
    have hfp : file.path = Join w.fm.dbDir name := hpath file rfl
    dsimp only
    split
    · exact ⟨_, rfl, hfr q hq⟩
    · split
      · exact ⟨_, rfl, hfr q hq⟩
      · have hother : (OSFile.Write (file.Seek gw.disk gw.maxBytes 0 2).1 gw.disk gw.maxBytes
            p).2.1 q = w.disk q := by
          rw [OSFile_Write_other _ _ _ _ _ (by rw [OSFile_Seek_path, hfp]; exact hq)]
          exact hfr q hq
        split
        · exact ⟨_, rfl, hother⟩
        · exact ⟨_, rfl, hother⟩

theorem pathError_none_indep (disk1 disk2 : Disk) (dirs : String → Bool) (l : List String)
    (h : pathError disk1 dirs l = none) : pathError disk2 dirs l = none := by
  induction l with
  | nil => rfl
  | cons a rest ih =>
    simp only [pathError] at h ⊢
    by_cases hdir : dirs a = true ∨ upOnly a = true
    · rw [if_pos hdir] at h ⊢
      exact ih h
    · rw [if_neg hdir] at h
      split at h <;> cases h

/-- Whether the system lets a file be made on a path does not depend on the regular files
there are, once every directory on the way exists. -/
theorem openError_none_indep (disk1 disk2 : Disk) (dirs : String → Bool) (name : String)
    (h : openError disk1 dirs name = none) : openError disk2 dirs name = none := by
  unfold openError at h ⊢
  split
  · rename_i h1
    rw [if_pos h1] at h
    cases h
  · rename_i h1
    rw [if_neg h1] at h
    split
    · rename_i h2
      rw [if_pos h2] at h
      cases h
    · rename_i h2
      rw [if_neg h2] at h
      split
      · rename_i h3
        rw [if_pos h3] at h
        cases h
      · rename_i h3
        rw [if_neg h3] at h
        split
        · rename_i h4
          rw [if_pos h4] at h
          cases h
        · rename_i h4
          rw [if_neg h4] at h
          cases hp : pathError disk1 dirs (ancestors name) with
          | some e =>
            rw [hp] at h
            cases h
          | none =>
            rw [hp] at h
            rw [pathError_none_indep disk1 disk2 dirs _ hp]
            exact h

/-- C15, as amended: between calls, `Write` and `Append` on file name `f` return and leave
the file on every other path than `filepath.Join(dbDir, f)` as it was, so every file whose
name `g` resolves to another path; consequently, for two names that resolve to different
paths, have no file yet, and on whose paths the system lets a file be made (the names are
well-formed, they name no directory, and every directory on the way exists), appending one
`BLOCK_SIZE` buffer to each, in either order, succeeds for both, each returns block number 0
for its own file, and each file holds its own buffer. -/
theorem Write_Append_other_files (w : World) (f g : String) (hwf : w.WF)
    (hfg : Join w.fm.dbDir f ≠ Join w.fm.dbDir g) :
    (∀ (n : Int) (p : List Byte), ∃ r, FileManager.Write w (NewBlock f n) p = .ret r ∧
      r.1.disk (Join w.fm.dbDir g) = w.disk (Join w.fm.dbDir g)) ∧
    (∀ (p : List Byte), ∃ r, FileManager.Append w f p = .ret r ∧
      r.1.disk (Join w.fm.dbDir g) = w.disk (Join w.fm.dbDir g)) ∧
    (w.CanCreate (Join w.fm.dbDir f) → w.CanCreate (Join w.fm.dbDir g) →
      ∀ (p1 p2 : List Byte), p1.length = BLOCK_SIZE → p2.length = BLOCK_SIZE →
        (∃ w1 w2, FileManager.Append w f p1 = .ret (w1, .ok (NewBlock f 0)) ∧
          FileManager.Append w1 g p2 = .ret (w2, .ok (NewBlock g 0)) ∧
          w2.disk (Join w.fm.dbDir f) = some p1 ∧ w2.disk (Join w.fm.dbDir g) = some p2) ∧
        (∃ w1 w2, FileManager.Append w g p2 = .ret (w1, .ok (NewBlock g 0)) ∧
          FileManager.Append w1 f p1 = .ret (w2, .ok (NewBlock f 0)) ∧
          w2.disk (Join w.fm.dbDir f) = some p1 ∧ w2.disk (Join w.fm.dbDir g) = some p2)) := by
  have hblock : BLOCK_SIZE ≤ w.maxBytes := by
    have h0 := hwf.2.2.2
    have hmb : w.maxBytes = w.maxBlocks * 4096 := rfl
    simp only [BLOCK_SIZE]
    omega
  have key : ∀ (a b : String), Join w.fm.dbDir a ≠ Join w.fm.dbDir b →
      w.CanCreate (Join w.fm.dbDir a) → w.CanCreate (Join w.fm.dbDir b) →
      ∀ (pa pb : List Byte), pa.length = BLOCK_SIZE → pb.length = BLOCK_SIZE → ∃ w1 w2,
        FileManager.Append w a pa = .ret (w1, .ok (NewBlock a 0)) ∧
        FileManager.Append w1 b pb = .ret (w2, .ok (NewBlock b 0)) ∧
        w2.disk (Join w.fm.dbDir a) = some pa ∧ w2.disk (Join w.fm.dbDir b) = some pb := by
    intro a b hab ha hb pa pb hpa hpb
    have h1 := FileManager_Append_create w a pa hwf ha (by rw [hpa]; exact hblock)
    have hwf1 := transferred_WF w a pa pa.length hwf (by rw [hpa]; exact hblock)
    have hb1 : (w.transferred a (Join w.fm.dbDir a) pa pa.length).CanCreate
        (Join (w.transferred a (Join w.fm.dbDir a) pa pa.length).fm.dbDir b) :=
      ⟨by rw [transferred_dbDir, transferred_disk_ne _ _ _ _ _ _ (Ne.symm hab)]; exact hb.1,
        openError_none_indep w.disk _ w.dirs _ hb.2⟩
    have h2 := FileManager_Append_create _ b pb hwf1 hb1 (by rw [hpb]; exact hblock)
    rw [transferred_dbDir] at h2
    refine ⟨_, _, h1, h2, ?_, ?_⟩
    · rw [transferred_disk_ne _ _ _ _ _ _ hab, transferred_disk]
    · rw [transferred_disk]
  refine ⟨?_, ?_, ?_⟩
  · intro n p
    exact FileManager_Write_frame w (NewBlock f n) p _ hwf (Ne.symm hfg)
  · intro p
    exact FileManager_Append_frame w f p _ hwf (Ne.symm hfg)
  · intro hf hg p1 p2 hp1 hp2
    refine ⟨key f g hfg hf hg p1 p2 hp1 hp2, ?_⟩
    obtain ⟨w1, w2, h1, h2, h3, h4⟩ := key g f (Ne.symm hfg) hg hf p2 p1 hp2 hp1
    exact ⟨w1, w2, h1, h2, h4, h3⟩

/-- Witness for C15, as amended: `a.dat` and `b.dat` in a directory with no file. -/
theorem Write_Append_other_files_witness :
    ∃ w1 w2, FileManager.Append (World.fresh "db") "a.dat" (List.replicate 4096 1)
        = .ret (w1, .ok (NewBlock "a.dat" 0)) ∧
      FileManager.Append w1 "b.dat" (List.replicate 4096 2)
        = .ret (w2, .ok (NewBlock "b.dat" 0)) ∧
      w2.disk (Join (World.fresh "db").fm.dbDir "a.dat") = some (List.replicate 4096 1) ∧
      w2.disk (Join (World.fresh "db").fm.dbDir "b.dat") = some (List.replicate 4096 2) :=
  ((Write_Append_other_files (World.fresh "db") "a.dat" "b.dat" (World.fresh_WF "db")
    (by decide)).2.2 ⟨rfl, by decide⟩ ⟨rfl, by decide⟩
    (List.replicate 4096 1) (List.replicate 4096 2)
    (List.length_replicate _ _) (List.length_replicate _ _)).1

/-- C15 fails as stated.  Two different names of one path: `a` and `./a` are different
file names, neither has a file in a new directory, and `filepath.Join` sends both to `db/a`.
After one block is appended to `a` (block 0), the append of one block to `./a` returns block
number 1, not 0, and the file of name `a` has grown from one block to two.  Two names of
different paths, one below the other: `a` and `a/b` have no file in a new directory; the
append to `a/b` fails, with `ENOENT` when it comes first (there is no directory `db/a`) and
with `ENOTDIR` when it comes after the append to `a` (`db/a` is then a regular file). -/
theorem Write_Append_other_files_counterexample :
    ("a" ≠ "./a" ∧
      (World.fresh "db").disk (Join (World.fresh "db").fm.dbDir "a") = none ∧
      (World.fresh "db").disk (Join (World.fresh "db").fm.dbDir "./a") = none ∧
      ∃ w1 w2, FileManager.Append (World.fresh "db") "a" (List.replicate 4096 1)
          = .ret (w1, .ok (NewBlock "a" 0)) ∧
        w1.disk (Join (World.fresh "db").fm.dbDir "a") = some (List.replicate 4096 1) ∧
        FileManager.Append w1 "./a" (List.replicate 4096 2) = .ret (w2, .ok (NewBlock "./a" 1)) ∧
        w2.disk (Join (World.fresh "db").fm.dbDir "a")
          = some (List.replicate 4096 1 ++ List.replicate 4096 2)) ∧
    (Join (World.fresh "db").fm.dbDir "a" ≠ Join (World.fresh "db").fm.dbDir "a/b" ∧
      (World.fresh "db").disk (Join (World.fresh "db").fm.dbDir "a") = none ∧
      (World.fresh "db").disk (Join (World.fresh "db").fm.dbDir "a/b") = none ∧
      FileManager.Append (World.fresh "db") "a/b" (List.replicate 4096 2)
        = .ret (World.fresh "db", .error .notExist) ∧
      ∃ w1, FileManager.Append (World.fresh "db") "a" (List.replicate 4096 1)
          = .ret (w1, .ok (NewBlock "a" 0)) ∧
        FileManager.Append w1 "a/b" (List.replicate 4096 2)
          = .ret (w1, .error .notDirectory)) := by
  have hwf := World.fresh_WF "db"
  have hca : (World.fresh "db").CanCreate (Join (World.fresh "db").fm.dbDir "a") :=
    ⟨rfl, by decide⟩
  have hfit : (List.replicate 4096 (1 : Byte)).length ≤ (World.fresh "db").maxBytes := by
    rw [List.length_replicate, World.fresh_maxBytes]
    decide
  have h1 := FileManager_Append_create (World.fresh "db") "a" (List.replicate 4096 1) hwf hca
    hfit
  have hwf1 := transferred_WF (World.fresh "db") "a" (List.replicate 4096 1)
    (List.replicate 4096 (1 : Byte)).length hwf hfit
  refine ⟨⟨by decide, rfl, rfl, ?_⟩, by decide, rfl, rfl, ?_, ?_⟩
  · have hj : Join (World.fresh "db").fm.dbDir "./a" = Join (World.fresh "db").fm.dbDir "a" := by
      decide
    have h2 := FileManager_Append_existing _ "./a" (List.replicate 4096 2)
      (List.replicate 4096 1) hwf1
      (by rw [transferred_dbDir, hj]; exact transferred_disk _ _ _ _ _)
      (by rw [List.length_replicate, List.length_replicate]
          show 4096 + 4096 ≤ (World.fresh "db").maxBytes
          rw [World.fresh_maxBytes]
          decide)
    rw [transferred_dbDir, hj] at h2
    have hdiv : (List.replicate 4096 (1 : Byte)).length / BLOCK_SIZE = 1 := by
      rw [List.length_replicate]; decide
    rw [hdiv] at h2
    exact ⟨_, _, h1, transferred_disk _ _ _ _ _, h2, transferred_disk _ _ _ _ _⟩
  · exact FileManager_Append_open_error (World.fresh "db") "a/b" (List.replicate 4096 2)
      .notExist hwf rfl (by decide)
  · refine ⟨_, h1, ?_⟩
    exact FileManager_Append_open_error _ "a/b" (List.replicate 4096 2) .notDirectory hwf1
      (by rw [transferred_dbDir, transferred_disk_ne _ _ _ _ _ _ (by decide)]; rfl)
      (by decide)

/-! ## The two embeddings of the setters agree -/

theorem runSetInt_outcome (p : Page) (o v : Int) : (p.runSetInt o v).outcome = p.SetInt o v := by
  unfold Page.runSetInt Page.SetInt
  cases h : p.mu.Lock with
  | blocked => rfl
  | panic => rfl
  | ret mu1 =>
    simp only [Outcome.bind]
    cases hc : copyAt p.contents o (putInt32LE v) with
    | none => rfl
    | some contents =>
      simp only
      cases hu : mu1.Unlock <;> rfl

theorem runSetString_outcome (p : Page) (o : Int) (s : GoString) :
    (p.runSetString o s).outcome = p.SetString o s := by
  unfold Page.runSetString Page.SetString
  cases h : p.mu.Lock with
  | blocked => rfl
  | panic => rfl
  | ret mu1 =>
    simp only [Outcome.bind]
    rw [← runSetInt_outcome]
    cases hr : Page.runSetInt { p with mu := mu1 } o (toInt32 s.length) with
    | blocked p1 => rfl
    | panic p1 => rfl
    | ret p1 =>
      simp only [PageRun.outcome]
      cases hc : copyAt p1.contents (o + INT_SIZE) s with
      | none => rfl
      | some contents =>
        simp only
        cases hu : p1.mu.Unlock <;> rfl

/-- On an unlocked page `SetString` stops at the lock of `SetInt`: the page lock is then held
for writing and the buffer is as it was. -/
theorem runSetString_unlocked (p : Page) (o : Int) (s : GoString) (hmu : p.mu = RWMutex.free) :
    p.runSetString o s = .blocked ⟨⟨true, 0⟩, p.contents⟩ := by
  simp [Page.runSetString, Page.runSetInt, hmu, RWMutex.free, RWMutex.Lock]

/-! ## The size of a string slot -/

theorem ite_bounds {P : Prop} [Decidable P] {a b : Nat} (ha : 1 ≤ a ∧ a ≤ 4)
    (hb : 1 ≤ b ∧ b ≤ 4) : 1 ≤ (if P then a else b) ∧ (if P then a else b) ≤ 4 := by
  split <;> assumption

theorem runeWidth_bounds (c : Byte) (rest : List Byte) :
    1 ≤ runeWidth (c :: rest) ∧ runeWidth (c :: rest) ≤ 4 := by
  rcases rest with _ | ⟨c1, _ | ⟨c2, _ | ⟨c3, r3⟩⟩⟩ <;> simp only [runeWidth] <;>
    repeat' (first | exact ⟨by omega, by omega⟩ | apply ite_bounds)

/-- A rune takes at most four bytes: the byte length is at most four times the rune count. -/
theorem length_le_runeCountFuel :
    ∀ (fuel : Nat) (s : List Byte), s.length ≤ fuel → s.length ≤ 4 * runeCountFuel fuel s := by
  intro fuel
  induction fuel with
  | zero =>
    intro s h
    omega
  | succ fuel ih =>
    intro s h
    cases s with
    | nil => simp
    | cons c rest =>
      obtain ⟨h1, h4⟩ := runeWidth_bounds c rest
      have hd : ((c :: rest).drop (runeWidth (c :: rest))).length
          = (c :: rest).length - runeWidth (c :: rest) := List.length_drop _ _
      have := ih ((c :: rest).drop (runeWidth (c :: rest))) (by rw [hd]; omega)
      simp only [runeCountFuel]
      omega

theorem length_le_runeCount (s : GoString) : s.length ≤ 4 * runeCount s :=
  length_le_runeCountFuel s.length s (Nat.le_refl _)

/-- C14, as amended: `StrSize(n)` equals `4 + 4 * n` for every `n ≥ 0` with `4 + 4 * n < 2^63`,
and for those `n` it bounds the slot of a string from above: every string `s` of at most `n`
characters (Unicode code points, counted as `utf8.RuneCountInString` counts them) has
`4 + len(s) ≤ StrSize(n)`, `len(s)` being its encoded byte length, and `SetString(o, s)` on an
unlocked page changes no byte outside `[o, o + StrSize(n))`. -/
theorem StrSize_upper_bound (n : Int) (h0 : 0 ≤ n) (hb : 4 + 4 * n < 9223372036854775808) :
    StrSize n = 4 + 4 * n ∧
    (∀ s : GoString, (runeCount s : Int) ≤ n → 4 + (s.length : Int) ≤ StrSize n) ∧
    ∀ (p : Page) (o : Int) (s : GoString), p.mu = RWMutex.free → (runeCount s : Int) ≤ n →
      ∀ i : Nat, ((i : Int) < o ∨ o + StrSize n ≤ i) →
        (p.runSetString o s).page.contents[i]? = p.contents[i]? := by
  have hs : StrSize n = 4 + 4 * n := by
    simp only [StrSize, toInt64, INT_SIZE]
    omega
  refine ⟨hs, ?_, ?_⟩
  · intro s hn
    have := length_le_runeCount s
    rw [hs]
    omega
  · intro p o s hmu _ i _
    rw [runSetString_unlocked p o s hmu]
    rfl

/-- Witness for C14, as amended: three characters, the string `a€b` of five bytes, at offset 8
of a new page. -/
theorem StrSize_upper_bound_witness :
    StrSize 3 = 4 + 4 * 3 ∧
    4 + (([97, 226, 130, 172, 98] : GoString).length : Int) ≤ StrSize 3 ∧
    ∀ i : Nat, ((i : Int) < 8 ∨ 8 + StrSize 3 ≤ i) →
      (NewPage.runSetString 8 [97, 226, 130, 172, 98]).page.contents[i]?
        = NewPage.contents[i]? :=
  ⟨(StrSize_upper_bound 3 (by decide) (by decide)).1,
    (StrSize_upper_bound 3 (by decide) (by decide)).2.1 [97, 226, 130, 172, 98] (by decide),
    (StrSize_upper_bound 3 (by decide) (by decide)).2.2 NewPage 8 [97, 226, 130, 172, 98] rfl
      (by decide)⟩

/-- C14 fails as stated for large `n`: for `n = 2^61` the product `n * 4` overflows the
64-bit `int`, and `StrSize(n)` is `-2^63 + 4`, not `4 + 4 * n`. -/
theorem StrSize_upper_bound_counterexample :
    (0 : Int) ≤ 2305843009213693952 ∧
    StrSize 2305843009213693952 = -9223372036854775804 ∧
    StrSize 2305843009213693952 ≠ 4 + 4 * 2305843009213693952 := by
  decide

/-! ## Bytes outside the written range -/

theorem splice_getElem?_outside (l s : List Byte) (n i : Nat) (h : n + s.length ≤ l.length)
    (hi : i < n ∨ n + s.length ≤ i) :
    (l.take n ++ s ++ l.drop (n + s.length))[i]? = l[i]? := by
  have hn : (l.take n).length = n := by simp only [List.length_take]; omega
  rcases hi with hi | hi
  · rw [List.append_assoc, List.getElem?_append_left (by omega),
      List.getElem?_take_of_lt hi]
  · rw [List.getElem?_append_right (by simp only [List.length_append, hn]; omega),
      List.getElem?_drop]
    simp only [List.length_append, hn]
    congr 1
    omega

theorem slice_congr (l1 l2 : List Byte) (lo hi : Int) (hlen : l1.length = l2.length)
    (h : ∀ i : Nat, lo ≤ i → (i : Int) < hi → l1[i]? = l2[i]?) :
    slice l1 lo hi = slice l2 lo hi := by
  unfold slice
  rw [hlen]
  split
  · rename_i hc
    congr 1
    apply List.ext_getElem?
    intro j
    simp only [List.getElem?_take, List.getElem?_drop]
    split
    · exact h _ (by omega) (by omega)
    · rfl
  · rfl

theorem slice_some (l : List Byte) (lo hi : Int) (h0 : 0 ≤ lo) (h1 : lo ≤ hi)
    (h2 : hi ≤ l.length) : ∃ b, slice l lo hi = some b := by
  unfold slice
  rw [if_pos ⟨h0, h1, h2⟩]
  exact ⟨_, rfl⟩

/-- C17: for every unlocked page of `BLOCK_SIZE` bytes, every offset `o` with `0 ≤ o` and
`o + 4 ≤ BLOCK_SIZE` and every value `v`: `SetInt(o, v)` returns and changes no byte of the
buffer outside `[o, o + 4)`, so for every offset `o'` inside the buffer with `o' + 4 ≤ o` or
`o + 4 ≤ o'`, `GetInt(o')` returns the same value before the call and after it.  Likewise
`SetString(o, s)` with `o + 4 + L ≤ BLOCK_SIZE` changes no byte outside `[o, o + 4 + L)`: the
page as the call leaves it has those bytes as they were (the call stops at the lock of
`SetInt`, before any byte is written). -/
theorem SetInt_SetString_frame (p : Page) (o v : Int) (hmu : p.mu = RWMutex.free)
    (hlen : p.contents.length = BLOCK_SIZE) (ho : 0 ≤ o) (ho4 : o + 4 ≤ BLOCK_SIZE) :
    (∃ p1, p.SetInt o v = .ret p1 ∧
      (∀ i : Nat, ((i : Int) < o ∨ o + 4 ≤ i) → p1.contents[i]? = p.contents[i]?) ∧
      ∀ o2 : Int, 0 ≤ o2 → o2 + 4 ≤ BLOCK_SIZE → (o2 + 4 ≤ o ∨ o + 4 ≤ o2) →
        ∃ x, p.GetInt o2 = .ret (p, x) ∧ p1.GetInt o2 = .ret (p1, x)) ∧
    ∀ s : GoString, o + 4 + s.length ≤ BLOCK_SIZE →
      ∀ i : Nat, ((i : Int) < o ∨ o + 4 + s.length ≤ i) →
        (p.runSetString o s).page.contents[i]? = p.contents[i]? := by
  have h1 : o + 4 ≤ p.contents.length := by rw [hlen]; exact ho4
  have hn : o.toNat + (putInt32LE v).length ≤ p.contents.length := by
    rw [putInt32LE_length]; omega
  have hout : ∀ i : Nat, ((i : Int) < o ∨ o + 4 ≤ i) →
      (p.contents.take o.toNat ++ putInt32LE v ++ p.contents.drop (o.toNat + 4))[i]?
        = p.contents[i]? := by
    intro i hi
    have := splice_getElem?_outside p.contents (putInt32LE v) o.toNat i hn
      (by rw [putInt32LE_length]; omega)
    rw [putInt32LE_length] at this
    exact this
  have hl1 : (p.contents.take o.toNat ++ putInt32LE v ++ p.contents.drop (o.toNat + 4)).length
      = p.contents.length := by
    have := splice_length p.contents (putInt32LE v) o.toNat hn
    rw [putInt32LE_length] at this
    exact this
  refine ⟨⟨_, SetInt_ret p o v hmu ho h1, hout, ?_⟩, ?_⟩
  · intro o2 h0 h4 hdis
    obtain ⟨b, hb⟩ := slice_some p.contents o2 (o2 + INT_SIZE) h0 (by simp [INT_SIZE])
      (by rw [hlen]; simp only [INT_SIZE]; exact_mod_cast h4)
    have hb1 : slice (p.contents.take o.toNat ++ putInt32LE v ++ p.contents.drop (o.toNat + 4))
        o2 (o2 + INT_SIZE) = some b := by
      rw [← hb]
      apply slice_congr _ _ _ _ hl1
      intro i hi1 hi2
      apply hout
      simp only [INT_SIZE] at hi2
      omega
    exact ⟨readInt32LE b, GetInt_ret p o2 hmu b hb, GetInt_ret _ o2 rfl b hb1⟩
  · intro s _ i _
    rw [runSetString_unlocked p o s hmu]
    rfl

/-- Witness for C17: 7 written at offset 8 of a new page. -/
theorem SetInt_SetString_frame_witness :
    (∃ p1, NewPage.SetInt 8 7 = .ret p1 ∧
      (∀ i : Nat, ((i : Int) < 8 ∨ (8 : Int) + 4 ≤ i) → p1.contents[i]? = NewPage.contents[i]?) ∧
      ∀ o2 : Int, 0 ≤ o2 → o2 + 4 ≤ BLOCK_SIZE → (o2 + 4 ≤ 8 ∨ (8 : Int) + 4 ≤ o2) →
        ∃ x, NewPage.GetInt o2 = .ret (NewPage, x) ∧ p1.GetInt o2 = .ret (p1, x)) ∧
    ∀ s : GoString, (8 : Int) + 4 + s.length ≤ BLOCK_SIZE →
      ∀ i : Nat, ((i : Int) < 8 ∨ (8 : Int) + 4 + s.length ≤ i) →
        (NewPage.runSetString 8 s).page.contents[i]? = NewPage.contents[i]? :=
  SetInt_SetString_frame NewPage 8 7 rfl (List.length_replicate _ _) (by decide) (by decide)

/-! ## Locks taken twice -/

/-- `GetInt` returns on a page whose lock no writer holds, read locks held or not. -/
theorem GetInt_ret_of_no_writer (p : Page) (o : Int) (hw : p.mu.writer = false) (b : List Byte)
    (hs : slice p.contents o (o + INT_SIZE) = some b) :
    p.GetInt o = .ret (p, readInt32LE b) := by
  cases p with
  | mk mu contents =>
    cases mu with
    | mk wr rd =>
      simp only at hw hs
      subst hw
      simp [Page.GetInt, RWMutex.RLock, RWMutex.RUnlock, Outcome.bind, hs]

/-- `GetString` on an unlocked page returns: the read lock it holds does not stop the read
lock of `GetInt`. -/
theorem GetString_ret (p : Page) (o : Int) (b : List Byte) (s : GoString)
    (hmu : p.mu = RWMutex.free) (hs1 : slice p.contents o (o + INT_SIZE) = some b)
    (hs2 : slice p.contents (o + INT_SIZE) (o + INT_SIZE + readInt32LE b) = some s) :
    p.GetString o = .ret (p, s) := by
  cases p with
  | mk mu contents =>
    simp only at hmu hs1 hs2
    subst hmu
    have hg := GetInt_ret_of_no_writer ⟨⟨false, 1⟩, contents⟩ o rfl b hs1
    simp only [Page.GetString, RWMutex.free, RWMutex.RLock, Outcome.bind, if_true, hg, hs2,
      RWMutex.RUnlock]
    rfl

theorem slice_replicate (n : Nat) (a : Byte) (lo hi : Int) (h0 : 0 ≤ lo) (h1 : lo ≤ hi)
    (h2 : hi ≤ n) :
    slice (List.replicate n a) lo hi = some (List.replicate (hi - lo).toNat a) := by
  unfold slice
  rw [List.length_replicate, if_pos ⟨h0, h1, h2⟩, List.drop_replicate, List.take_replicate]
  congr 2
  omega

/-- C16: `SetString` does not run to completion on a page whose lock nobody holds.  On a new
page `SetString(0, "hi")` takes the page lock and blocks in `SetInt`, which asks for the same
lock: the call never returns, the lock stays held for writing and the buffer is untouched.
`GetString`, which calls `GetInt` with the read lock held, does return on the same page, with
the lock released. -/
theorem SetString_self_deadlock :
    NewPage.mu = RWMutex.free ∧
    NewPage.SetString 0 [104, 105] = Outcome.blocked ∧
    NewPage.runSetString 0 [104, 105] = PageRun.blocked ⟨⟨true, 0⟩, NewPage.contents⟩ ∧
    NewPage.GetString 0 = Outcome.ret (NewPage, []) := by
  refine ⟨rfl, SetString_blocked _ _ _, runSetString_unlocked _ _ _ rfl, ?_⟩
  have hs1 : slice NewPage.contents 0 (0 + INT_SIZE) = some [0, 0, 0, 0] :=
    slice_replicate 4096 0 0 4 (by decide) (by decide) (by decide)
  have hs2 : slice NewPage.contents (0 + INT_SIZE) (0 + INT_SIZE + readInt32LE [0, 0, 0, 0])
      = some [] :=
    slice_replicate 4096 0 4 4 (by decide) (by decide) (by decide)
  exact GetString_ret NewPage 0 [0, 0, 0, 0] [] rfl hs1 hs2

/-- C18: `SetString` with a string that does not fit records nothing.  With `o = 4090` and a
string of 8 bytes (`o + 4 ≤ BLOCK_SIZE < o + 4 + 8`), `SetString` on a new page blocks for
ever at the lock of `SetInt`: the four bytes at `o` are not set to the length, no byte of the
payload is stored, the buffer is as it was. -/
theorem SetString_overlong_blocked :
    (4090 : Int) + 4 ≤ BLOCK_SIZE ∧
    (BLOCK_SIZE : Int) < 4090 + 4 + ([1, 2, 3, 4, 5, 6, 7, 8] : GoString).length ∧
    NewPage.SetString 4090 [1, 2, 3, 4, 5, 6, 7, 8] = Outcome.blocked ∧
    (NewPage.runSetString 4090 [1, 2, 3, 4, 5, 6, 7, 8]).page.contents = NewPage.contents := by
  refine ⟨by decide, by decide, SetString_blocked _ _ _, ?_⟩
  rw [runSetString_unlocked _ _ _ rfl]
  rfl

end GoSimpleDB
